import Mathlib

/-!
# Verification of the rustylisp core

A shallow embedding, in Lean 4, of the parts of the rustylisp interpreter
that the specification's claims are about:

* `src/core/obj/vec.rs` — the persistent binary-trie vector `PersistentVec`;
* `src/core/obj/mod.rs` — the runtime value model `LispObj`;
* `src/core/error.rs` — `RuntimeError` and its traceback flattening;
* `src/core/env.rs` — chained binding frames (`Environment`);
* `src/evaluator/…` — the evaluator fragment: `eval`, `apply`, the special
  form handlers, the tail-call helpers and multi-arity dispatch.

Rust's `Rc<RefCell<Environment>>` graph is embedded as a store (a list of
frames) addressed by natural numbers; `RefCell` mutation becomes explicit
state passing.  Potentially diverging loops take an explicit `fuel`
argument and answer `none` when it runs out; `none` also stands for the
(unreachable under the stated hypotheses) `panic!`/`expect` aborts of the
Rust code.  Machine integers (`i64`, `u32`, `usize`) are embedded as
`Int`/`Nat`: none of the verified operations can overflow them.
-/

namespace RustyLisp

/-! ## Persistent vector (`src/core/obj/vec.rs`)

The binary trie: each internal node has exactly two children, each leaf
holds up to two elements (as `Option`s).  `TrieNodeRef` (an `Rc`) is
embedded as plain ownership: the Rust code never mutates a node in place,
so reference sharing is unobservable. -/

inductive PersistentTrieNode (T : Type) : Type where
  | node : PersistentTrieNode T → PersistentTrieNode T → PersistentTrieNode T
  | leaf : Option T → Option T → PersistentTrieNode T
  deriving DecidableEq, Repr

/-- `PersistentVec { size, capacity, root }`. -/
structure PersistentVec (T : Type) : Type where
  size : Nat
  capacity : Nat
  root : PersistentTrieNode T
  deriving DecidableEq, Repr

/-- `PersistentTrieNode::lookup(index, cap)`.  The `cap != 2` arm of the
leaf case is a `panic!("Improper PersistentTrieNode")` in the source,
embedded as `none`; it is unreachable on well-formed tries. -/
def PersistentTrieNode.lookup {T : Type} : PersistentTrieNode T → Nat → Nat → Option T
  | .node l r, index, cap =>
    let half := cap / 2
    if index < half then l.lookup index half else r.lookup (index % half) half
  | .leaf l r, index, cap =>
    if cap = 2 then
      match index with
      | 0 => l
      | 1 => r
      | _ => none
    else
      none

/-- `PersistentTrieNode::insert(index, cap, item)`: rebuilds the path to
`index`, sharing the sibling subtree.  The `cap != 2` leaf arm is a
`panic!` in the source, embedded as `none`. -/
def PersistentTrieNode.insert {T : Type} : PersistentTrieNode T → Nat → Nat → T → Option (PersistentTrieNode T)
  | .node l r, index, cap, item =>
    let half := cap / 2
    if index < half then
      (l.insert index half item).map (fun new_l => .node new_l r)
    else
      (r.insert (index % half) half item).map (fun new_r => .node l new_r)
  | .leaf l r, index, cap, item =>
    if cap = 2 then
      match index with
      | 0 => some (.leaf (some item) r)
      | 1 => some (.leaf l (some item))
      | _ => none
    else
      none

/-- `PersistentTrieNode::from_iter_mut(source, count, cap)`.  The Rust
iterator is embedded as a `List`: `source.next()` is `head?`/`tail`, with
`none` standing for an exhausted iterator exactly as in the source, where
leaves store `Option`s.  The unconsumed remainder of the iterator is
returned as the second component. -/
def PersistentTrieNode.from_iter_mut {T : Type} (source : List T) (count cap : Nat) :
    PersistentTrieNode T × List T :=
  if cap = 0 then (.leaf none none, source)
  else if cap = 1 then (.leaf source.head? none, source.tail)
  else if cap = 2 then (.leaf source.head? source.tail.head?, source.tail.tail)
  else
    let next := cap / 2
    let diff := if count ≥ next then count - next else 0
    let (left, source1) := from_iter_mut source next next
    let (right, source2) := from_iter_mut source1 diff next
    (.node left right, source2)
termination_by cap
decreasing_by
  · omega
  · omega

/-- `PersistentVec::new()`. -/
def PersistentVec.new (T : Type) : PersistentVec T :=
  { size := 0, capacity := 2, root := .leaf none none }

/-- `PersistentVec::len()`. -/
def PersistentVec.len {T : Type} (v : PersistentVec T) : Nat :=
  v.size

/-- `PersistentVec::lookup(index)`: out-of-bounds indices are rejected
before any trie descent. -/
def PersistentVec.lookup {T : Type} (v : PersistentVec T) (index : Nat) : Option T :=
  if index ≥ v.size then
    none
  else
    let cap := if v.capacity ≥ 2 then v.capacity else 2
    v.root.lookup index cap

/-- `PersistentVec::insert(index, item)`: out-of-bounds indices are
rejected before any trie descent; otherwise a new vector with the same
size and capacity but a rebuilt root. -/
def PersistentVec.insert {T : Type} (v : PersistentVec T) (index : Nat) (item : T) :
    Option (PersistentVec T) :=
  if index ≥ v.size then
    none
  else
    (v.root.insert index v.capacity item).map (fun new_root => { v with root := new_root })

/-- `PersistentVec::from_iter_mut(iter, size)`: capacity is
`next_power_of_two(size)` adjusted up to at least 2. -/
def PersistentVec.from_iter_mut {T : Type} (iter : List T) (size : Nat) : PersistentVec T :=
  let cap :=
    let c := size.nextPowerOfTwo
    if c < 2 then 2 else c
  { size := size, capacity := cap,
    root := (PersistentTrieNode.from_iter_mut iter size cap).1 }

/-- `impl FromIterator for PersistentVec`.  A Rust iterator is embedded
as the list of elements it will produce together with the upper bound of
its `size_hint()`: the `(_, Some(high))` branch feeds `high` — the
reported bound, not the produced count — straight to `from_iter_mut`,
while the `(_, None)` branch first materializes the elements into a
`Vec` and feeds its true length. -/
def PersistentVec.from_iter {T : Type} (iter : List T) (hint : Option Nat) : PersistentVec T :=
  match hint with
  | some high => PersistentVec.from_iter_mut iter high
  | none => PersistentVec.from_iter_mut iter iter.length

/-- Structural well-formedness of a trie of capacity `cap`: leaves sit
exactly at capacity 2 and every internal node halves an even capacity.
Every trie the constructors build satisfies this for their capacity. -/
def PersistentTrieNode.wfb {T : Type} : PersistentTrieNode T → Nat → Bool
  | .leaf _ _, cap => cap == 2
  | .node l r, cap => decide (2 < cap) && decide (cap % 2 = 0) && l.wfb (cap / 2) && r.wfb (cap / 2)

/-- Well-formedness of a persistent vector: its root is a well-formed trie
for its capacity, and `size ≤ capacity` with `2 ≤ capacity`. -/
@[reducible]
def PersistentVec.Wf {T : Type} (v : PersistentVec T) : Prop :=
  v.root.wfb v.capacity = true ∧ v.size ≤ v.capacity ∧ 2 ≤ v.capacity

/-- A concrete well-formed three-element vector, used to instantiate the
persistent-vector theorems. -/
def vecThree : PersistentVec Nat :=
  { size := 3, capacity := 4,
    root := .node (.leaf (some 10) (some 20)) (.leaf (some 30) none) }

/-- `PersistentVec::is_empty()`. -/
def PersistentVec.is_empty {T : Type} (v : PersistentVec T) : Bool :=
  v.size == 0

/-! ## Value model (`src/core/obj/mod.rs`, `src/core/procedure.rs`,
`src/core/error.rs`)

`LispObjRef` (an `Rc`) is embedded as plain ownership; `EnvironmentRef`
(an `Rc<RefCell<Environment>>`) is embedded as a `Nat` index into an
explicit store of frames, so `Procedure.env` below is such an index.
`LNativeFunc` keeps the name and documentation but not the Rust function
pointer: native builtins are external collaborators (spec §1/§6), and
applying one is out of this embedding's scope. -/

/-- `ArityObj { argnames, rest }`. -/
structure ArityObj : Type where
  argnames : List String
  rest : Option String
  deriving DecidableEq, Repr

mutual

/-- The `LispObj` tagged union. -/
inductive LispObj : Type where
  | LInteger : Int → LispObj
  | LFloat : Float → LispObj
  | LString : String → LispObj
  | LSymbol : String → LispObj
  | LChar : Char → LispObj
  | LCons : LispObj → LispObj → LispObj
  | LLazyCons : LispObj → Procedure → LispObj
  | LNil : LispObj
  | LVector : PersistentVec LispObj → LispObj
  | LNativeFunc : String → Option String → LispObj
  | LProcedure : Procedure → LispObj
  | LError : RuntimeError → LispObj

/-- `Procedure { env, name, id, documentation, body }`; `env` is a store
index, `id` the `u32` procedure id as a `Nat`. -/
inductive Procedure : Type where
  | mk : (env : Nat) → (name : Option String) → (id : Nat) →
         (documentation : Option String) →
         (body : List (ArityObj × List LispObj)) → Procedure

/-- `RuntimeError { errname, value, cause, source }`; the boxed cause is
direct nesting. -/
inductive RuntimeError : Type where
  | mk : (errname : String) → (value : Option LispObj) →
         (cause : Option RuntimeError) → (source : Option LispObj) → RuntimeError

end

def Procedure.env : Procedure → Nat
  | .mk e _ _ _ _ => e

def Procedure.name : Procedure → Option String
  | .mk _ n _ _ _ => n

def Procedure.id : Procedure → Nat
  | .mk _ _ i _ _ => i

def Procedure.documentation : Procedure → Option String
  | .mk _ _ _ d _ => d

def Procedure.body : Procedure → List (ArityObj × List LispObj)
  | .mk _ _ _ _ b => b

/-- `Procedure::with_name`. -/
def Procedure.with_name : Procedure → String → Procedure
  | .mk e _ i d b, n => .mk e (some n) i d b

/-- `Procedure::with_doc`. -/
def Procedure.with_doc : Procedure → String → Procedure
  | .mk e n i _ b, d => .mk e n i (some d) b

def RuntimeError.errname : RuntimeError → String
  | .mk n _ _ _ => n

def RuntimeError.value : RuntimeError → Option LispObj
  | .mk _ v _ _ => v

def RuntimeError.cause : RuntimeError → Option RuntimeError
  | .mk _ _ c _ => c

def RuntimeError.source : RuntimeError → Option LispObj
  | .mk _ _ _ s => s

/-- `RuntimeError::new(errtype, val, cause, source)`. -/
def RuntimeError.new (errtype : String) (val : Option LispObj) (cause : Option RuntimeError)
    (source : Option LispObj) : RuntimeError :=
  .mk errtype val cause source

/-- `RuntimeError::error(errtype)`. -/
def RuntimeError.error (errtype : String) : RuntimeError :=
  .mk errtype none none none

/-- `RuntimeError::new_from(cause, source)`: same kind and value, with the
given error attached as cause and the object as source. -/
def RuntimeError.new_from (cause : RuntimeError) (source : LispObj) : RuntimeError :=
  .mk cause.errname cause.value (some cause) (some source)

/-- `RuntimeError::with_source`. -/
def RuntimeError.with_source (e : RuntimeError) (source : LispObj) : RuntimeError :=
  .mk e.errname e.value e.cause (some source)

/-- `RuntimeError::with_cause`. -/
def RuntimeError.with_cause (e : RuntimeError) (cause : RuntimeError) : RuntimeError :=
  .mk e.errname e.value (some cause) e.source

/-- `RuntimeError::into_lisp_obj()`: the error as a first-class value. -/
def RuntimeError.into_lisp_obj (e : RuntimeError) : LispObj :=
  .LError e

/-- `RuntimeError::into_traceback()`: the source's `while val.cause.is_some()`
loop, which repeatedly pops the cause off the current error, pushes the
now-causeless error, and continues with the popped cause; the final
causeless error is pushed unchanged. -/
def RuntimeError.into_traceback : RuntimeError → List RuntimeError
  | .mk n v none s => [.mk n v none s]
  | .mk n v (some c) s => .mk n v none s :: c.into_traceback

/-- The cause-detached copy of an error, as `pop_cause` leaves it. -/
def RuntimeError.detach_cause : RuntimeError → RuntimeError
  | .mk n v _ s => .mk n v none s

/-- The cause chain of an error: the error itself, then its causes,
outermost first. -/
def RuntimeError.chain : RuntimeError → List RuntimeError
  | .mk n v none s => [.mk n v none s]
  | .mk n v (some c) s => .mk n v (some c) s :: c.chain

/-- The runtime-error constructors of the `runtime_error!`/`*_error!`
macros (`src/evaluator/mod.rs`, `src/evaluator/err_msgs.rs`): an error
kind plus a formatted message stored as the string payload. -/
def runtimeErrorMsg (name msg : String) : RuntimeError :=
  .mk name (some (.LString msg)) none none

def syntaxError (msg : String) : RuntimeError := runtimeErrorMsg "syntax-error" msg

def arityError (msg : String) : RuntimeError := runtimeErrorMsg "arity-error" msg

def boundError (msg : String) : RuntimeError := runtimeErrorMsg "bound-error" msg

def typeError (msg : String) : RuntimeError := runtimeErrorMsg "type-error" msg

def redefineError (msg : String) : RuntimeError := runtimeErrorMsg "redefine-error" msg

/-- `macro_error!(cause err; ...)`: a macro-expansion-error with message
payload and the underlying failure as cause. -/
def macroErrorCause (cause : RuntimeError) (msg : String) : RuntimeError :=
  .mk "macro-expansion-error" (some (.LString msg)) (some cause) none

/-- `LispObj::falsey()`: `()`, `0`, the empty string, the symbol `false`
and the empty vector are falsey. -/
def LispObj.falsey : LispObj → Bool
  | .LNil => true
  | .LInteger n => n == 0
  | .LString s => s.isEmpty
  | .LSymbol s => s == "false"
  | .LVector v => v.is_empty
  | _ => false

def LispObj.is_symbol : LispObj → Bool
  | .LSymbol _ => true
  | _ => false

def LispObj.is_nil : LispObj → Bool
  | .LNil => true
  | _ => false

def LispObj.is_native : LispObj → Bool
  | .LNativeFunc _ _ => true
  | _ => false

def LispObj.is_proc : LispObj → Bool
  | .LProcedure _ => true
  | _ => false

def LispObj.symbol_ref : LispObj → Option String
  | .LSymbol s => some s
  | _ => none

def LispObj.string_ref : LispObj → Option String
  | .LString s => some s
  | _ => none

def LispObj.cons_split : LispObj → Option (LispObj × LispObj)
  | .LCons car cdr => some (car, cdr)
  | _ => none

def LispObj.procedure_id : LispObj → Option Nat
  | .LProcedure p => some p.id
  | _ => none

/-- `is_self_evaluating` (`src/evaluator/mod.rs`). -/
def LispObj.is_self_evaluating : LispObj → Bool
  | .LInteger _ => true
  | .LFloat _ => true
  | .LString _ => true
  | .LNil => true
  | _ => false

/-- `LispObj::to_lisp_list`: builds a proper list right to left. -/
def LispObj.to_lisp_list : List LispObj → LispObj
  | [] => .LNil
  | o :: rest => .LCons o (LispObj.to_lisp_list rest)

mutual

/-- The `Display` implementation for `LispObj`, used by the `format!`
calls inside the error macros.  Vector elements are listed by in-order
trie traversal, which agrees with the source's index iterator on
well-formed hole-free vectors (on a vector with an unfilled slot below
`size` the Rust iterator panics; here the slot prints as nothing).
Floats print via Lean's `toString`, which can differ in rendering from
Rust's — no verified claim inspects a float's text. -/
def LispObj.display : LispObj → String
  | .LInteger n => toString n
  | .LFloat f => toString f
  | .LString s => "\"" ++ s ++ "\""
  | .LSymbol s => s
  | .LChar c =>
    if c = ' ' then "\\space"
    else if c = '\t' then "\\tab"
    else if c = '\n' then "\\newline"
    else "\\" ++ toString c
  | .LCons head tail =>
    "(" ++ head.display ++ (if tail.is_nil then "" else " ") ++ tail.displayTail ++ ")"
  | .LLazyCons _ _ => "#<lazy-cons>"
  | .LNil => "()"
  | .LVector v => "[" ++ String.join ((LispObj.displayTrie v.root).take v.size) ++ "]"
  | .LNativeFunc name _ => "<native-procedure:" ++ name ++ ">"
  | .LProcedure p =>
    match p.name with
    | some n => "<named-procedure:" ++ n ++ ">"
    | none => "<anonymous-function>"
  | .LError e => e.displayErr
termination_by o => (sizeOf o, 0)
decreasing_by
  all_goals simp_wf
  all_goals first
    | (apply Prod.Lex.left; omega)
    | (apply Prod.Lex.left
       obtain ⟨vs, vc, vr⟩ := v
       simp
       omega)

/-- The `while !rest.is_nil()` loop of the cons `Display` arm: elements
separated by spaces, a non-nil non-cons terminator shown dotted. -/
def LispObj.displayTail : LispObj → String
  | .LNil => ""
  | .LCons head .LNil => head.display
  | .LCons head tail => head.display ++ " " ++ tail.displayTail
  | other => ". " ++ other.display
termination_by o => (sizeOf o, 1)
decreasing_by
  all_goals simp_wf
  all_goals first
    | (apply Prod.Lex.left; omega)
    | (apply Prod.Lex.right; omega)

/-- Displays of the element slots of a vector trie, in order. -/
def LispObj.displayTrie : PersistentTrieNode LispObj → List String
  | .leaf a b => [LispObj.displayOpt a, LispObj.displayOpt b]
  | .node l r => LispObj.displayTrie l ++ LispObj.displayTrie r
termination_by t => (sizeOf t, 0)
decreasing_by
  all_goals simp_wf
  all_goals (apply Prod.Lex.left; omega)

def LispObj.displayOpt : Option LispObj → String
  | none => ""
  | some o => o.display
termination_by o => (sizeOf o, 0)
decreasing_by
  all_goals simp_wf
  all_goals (apply Prod.Lex.left; omega)

/-- The `Display` implementation for `RuntimeError`. -/
def RuntimeError.displayErr : RuntimeError → String
  | .mk errname value _ source =>
    "#<ERROR-OBJ " ++ errname ++
      (match value with
        | some v => " value: " ++ v.display
        | none => "") ++
      (match source with
        | some o => " source: " ++ o.display
        | none => "") ++ ">"
termination_by e => (sizeOf e, 0)
decreasing_by
  all_goals simp_wf
  all_goals (apply Prod.Lex.left; omega)

end

/-! ## Environments and the frame store (`src/core/env.rs`)

A Rust `HashMap` is embedded as an association list with unique keys:
`insert` replaces in place (or appends a fresh key at the end) and
returns the previous value, `get` scans — insertion order is irrelevant
to lookups, matching the hash map's contract.  The `Rc<RefCell<_>>`
frame graph is embedded as a `Store : List Environment` addressed by
position; `to_env_ref` appends.  Walks along `parent` pointers carry a
fuel bound (any acyclic chain in a store `s` visits at most `s.length`
distinct frames, so callers pass `s.length + 1`; Rust cannot build a
cyclic chain). -/

/-- `HashMap::get`. -/
def mapGet {κ α : Type} [DecidableEq κ] : List (κ × α) → κ → Option α
  | [], _ => none
  | (k, v) :: rest, key => if k = key then some v else mapGet rest key

/-- `HashMap::insert`: returns the previous value and the updated map. -/
def mapPut {κ α : Type} [DecidableEq κ] : List (κ × α) → κ → α → Option α × List (κ × α)
  | [], key, val => (none, [(key, val)])
  | (k, v) :: rest, key, val =>
    if k = key then (some v, (key, val) :: rest)
    else ((mapPut rest key val).1, (k, v) :: (mapPut rest key val).2)

/-- `HashMap::remove`: returns the removed value and the remaining map. -/
def mapDel {κ α : Type} [DecidableEq κ] : List (κ × α) → κ → Option α × List (κ × α)
  | [], _ => (none, [])
  | (k, v) :: rest, key =>
    if k = key then (some v, rest)
    else ((mapDel rest key).1, (k, v) :: (mapDel rest key).2)

/-- `Environment { parent, bindings, max_procedure_id, macros, special_chars }`. -/
structure Environment : Type where
  parent : Option Nat
  bindings : List (String × LispObj)
  max_procedure_id : Nat
  macros : Option (List (String × LispObj))
  special_chars : Option (List (Char × LispObj))

/-- `Environment::new()`. -/
def Environment.new : Environment :=
  { parent := none, bindings := [], max_procedure_id := 0,
    macros := none, special_chars := none }

/-- `Environment::from_parent(parent)`. -/
def Environment.from_parent (parent : Nat) : Environment :=
  { Environment.new with parent := some parent }

/-- `Environment::is_top_level()`. -/
def Environment.is_top_level (e : Environment) : Bool :=
  e.parent.isNone

/-- `Environment::clear_bindings()`. -/
def Environment.clear_bindings (e : Environment) : Environment :=
  { e with bindings := [], macros := none, special_chars := none }

/-- `Environment::let_new(name, value)`: insert into this frame's
bindings, returning the previous value if any. -/
def Environment.let_new (e : Environment) (name : String) (value : LispObj) :
    Option LispObj × Environment :=
  ((mapPut e.bindings name value).1,
    { e with bindings := (mapPut e.bindings name value).2 })

/-- `Environment::let_macro(name, value)`: the macro table is allocated on
first use. -/
def Environment.let_macro (e : Environment) (name : String) (value : LispObj) :
    Option LispObj × Environment :=
  match e.macros with
  | some m =>
    ((mapPut m name value).1, { e with macros := some (mapPut m name value).2 })
  | none => (none, { e with macros := some [(name, value)] })

/-- The store of frames; `EnvironmentRef` is an index into it. -/
abbrev Store := List Environment

def Store.getEnv (s : Store) (id : Nat) : Option Environment :=
  s[id]?

def Store.setEnv (s : Store) (id : Nat) (e : Environment) : Store :=
  s.set id e

/-- `Environment::to_env_ref()`: allocate a fresh frame. -/
def Store.alloc (s : Store) (e : Environment) : Nat × Store :=
  (s.length, s ++ [e])

/-- `Environment::lookup(name)` along the parent chain: the first frame
defining the name wins.  The outer `Option` is the fuel/model guard; the
inner `Option` is the Rust return value (`none` = unbound in every
frame). -/
def envLookup (s : Store) : Nat → Nat → String → Option (Option LispObj)
  | 0, _, _ => none
  | fuel + 1, id, name =>
    match s.getEnv id with
    | none => none
    | some e =>
      match mapGet e.bindings name with
      | some v => some (some v)
      | none =>
        match e.parent with
        | some par => envLookup s fuel par name
        | none => some none

/-- `Environment::lookup_macro(name)` along the parent chain. -/
def envLookupMacro (s : Store) : Nat → Nat → String → Option (Option LispObj)
  | 0, _, _ => none
  | fuel + 1, id, name =>
    match s.getEnv id with
    | none => none
    | some e =>
      let hit := match e.macros with
        | some m => mapGet m name
        | none => none
      match hit with
      | some v => some (some v)
      | none =>
        match e.parent with
        | some par => envLookupMacro s fuel par name
        | none => some none

/-- `get_top_level(env)` (`src/core/env.rs`): follow `parent` to the
root. -/
def getTopLevel (s : Store) : Nat → Nat → Option Nat
  | 0, _ => none
  | fuel + 1, id =>
    match s.getEnv id with
    | none => none
    | some e =>
      match e.parent with
      | some par => getTopLevel s fuel par
      | none => some id

/-- `Environment::swap_values(name, new_val)`: remove-then-insert in the
first frame that owns `name`, walking outward; if no frame owns it,
nothing changes and the Rust call returns `None`.  The `assert!` that the
re-insert finds an empty slot cannot fire (the name was just removed) and
is embedded as the model guard `none`. -/
def swapValues (s : Store) : Nat → Nat → String → LispObj → Option (Option LispObj × Store)
  | 0, _, _, _ => none
  | fuel + 1, id, name, newVal =>
    match s.getEnv id with
    | none => none
    | some e =>
      let (old, b2) := mapDel e.bindings name
      match old with
      | some oldVal =>
        let (prev, b3) := mapPut b2 name newVal
        if prev.isSome then none
        else some (some oldVal, s.setEnv id { e with bindings := b3 })
      | none =>
        match e.parent with
        | some par => swapValues s fuel par name newVal
        | none => some (none, s)

/-- `Environment::next_procedure_id()`: delegate to the root frame's
counter and post-increment it. -/
def nextProcedureId (s : Store) : Nat → Nat → Option (Nat × Store)
  | 0, _ => none
  | fuel + 1, id =>
    match s.getEnv id with
    | none => none
    | some e =>
      match e.parent with
      | some par => nextProcedureId s fuel par
      | none => some (e.max_procedure_id, s.setEnv id { e with max_procedure_id := e.max_procedure_id + 1 })

/-! ## The evaluation monad

`M α` threads the store and distinguishes three outcomes: a value, a
propagating `RuntimeError` (which keeps the store — `RefCell` mutations
made before the error persist), and `none` for out-of-fuel, `panic!`,
or a call out of the embedding's scope (a native function pointer). -/

def M (α : Type) : Type :=
  Store → Option (Except RuntimeError α × Store)

instance : Monad M where
  pure a := fun s => some (.ok a, s)
  bind x f := fun s =>
    match x s with
    | none => none
    | some (.error e, s2) => some (.error e, s2)
    | some (.ok a, s2) => f a s2

/-- Raise a `RuntimeError` (the `return Err(...)` of the error macros). -/
def M.throwE {α : Type} (e : RuntimeError) : M α :=
  fun s => some (.error e, s)

/-- Out of fuel / `panic!` / out of the embedding's scope. -/
def M.fail {α : Type} : M α :=
  fun _ => none

/-- Lift a pure fallible computation (`Option` layer = panic guard). -/
def M.ofPure {α : Type} : Option (Except RuntimeError α) → M α
  | none => M.fail
  | some (.ok a) => pure a
  | some (.error e) => M.throwE e

/-- Lift a pure `Except` (the `try!` on a pure helper). -/
def M.ofExcept {α : Type} : Except RuntimeError α → M α
  | .ok a => pure a
  | .error e => M.throwE e

/-- `env.borrow().lookup(name)`. -/
def M.lookupM (env : Nat) (name : String) : M (Option LispObj) :=
  fun s =>
    match envLookup s (s.length + 1) env name with
    | none => none
    | some r => some (.ok r, s)

/-- `lookup(..).expect(..)`: panics (model guard) when unbound. -/
def M.lookupExpectM (env : Nat) (name : String) : M LispObj :=
  fun s =>
    match envLookup s (s.length + 1) env name with
    | none => none
    | some none => none
    | some (some v) => some (.ok v, s)

/-- `env.borrow().lookup_macro(name)`. -/
def M.lookupMacroM (env : Nat) (name : String) : M (Option LispObj) :=
  fun s =>
    match envLookupMacro s (s.length + 1) env name with
    | none => none
    | some r => some (.ok r, s)

/-- `get_top_level(env)`. -/
def M.getTopLevelM (env : Nat) : M Nat :=
  fun s =>
    match getTopLevel s (s.length + 1) env with
    | none => none
    | some t => some (.ok t, s)

/-- `env.borrow_mut().let_new(name, value)` on the frame `env`. -/
def M.letNewM (env : Nat) (name : String) (value : LispObj) : M (Option LispObj) :=
  fun s =>
    match s.getEnv env with
    | none => none
    | some e =>
      let (old, e2) := e.let_new name value
      some (.ok old, s.setEnv env e2)

/-- `env.borrow_mut().let_macro(name, value)` on the frame `env`. -/
def M.letMacroM (env : Nat) (name : String) (value : LispObj) : M (Option LispObj) :=
  fun s =>
    match s.getEnv env with
    | none => none
    | some e =>
      let (old, e2) := e.let_macro name value
      some (.ok old, s.setEnv env e2)

/-- `env.borrow_mut().swap_values(name, new_val)`. -/
def M.swapValuesM (env : Nat) (name : String) (newVal : LispObj) : M (Option LispObj) :=
  fun s =>
    match swapValues s (s.length + 1) env name newVal with
    | none => none
    | some (old, s2) => some (.ok old, s2)

/-- `env.borrow_mut().next_procedure_id()`. -/
def M.nextProcedureIdM (env : Nat) : M Nat :=
  fun s =>
    match nextProcedureId s (s.length + 1) env with
    | none => none
    | some (n, s2) => some (.ok n, s2)

/-- `Environment::to_env_ref()` in the store. -/
def M.allocM (e : Environment) : M Nat :=
  fun s =>
    let (id, s2) := s.alloc e
    some (.ok id, s2)

/-! ## List flattening and procedure construction
(`flatten_list!` in `src/evaluator/mod.rs`, `src/evaluator/lambda.rs`)

The `env`-taking `flatten_list!` arm has a reader-special-character
branch guarded by `LispObj::is_special_char` — a method that does not
exist in the live object model under `src`, so no element can test as a
special character and both macro arms flatten a proper list identically. -/

/-- `flatten_list!(val, msg)`: flatten a proper list, or a syntax-error
mentioning the whole original value. -/
def flatten_list (msg : String) (val : LispObj) : Except RuntimeError (List LispObj) :=
  go val
where
  go : LispObj → Except RuntimeError (List LispObj)
    | .LCons hd tl =>
      match go tl with
      | .ok rest => .ok (hd :: rest)
      | .error e => .error e
    | .LNil => .ok []
    | _ => .error (syntaxError (msg ++ ": " ++ val.display))

/-- `parse_arglist(args)`: positional names until `Nil` (no rest) or a
terminating symbol (rest parameter). -/
def parse_arglist (args : LispObj) : Except RuntimeError ArityObj :=
  go args []
where
  go : LispObj → List String → Except RuntimeError ArityObj
    | .LNil, acc => .ok ⟨acc.reverse, none⟩
    | .LSymbol s, acc => .ok ⟨acc.reverse, some s⟩
    | .LCons hd tl, acc =>
      match hd.symbol_ref with
      | some name => go tl (name :: acc)
      | none => .error (syntaxError ("ill-formed argument list " ++ args.display))
    | _, _ => .error (syntaxError ("invalid argument list " ++ args.display))

/-- `parse_arglist_body(args, _env)`: one `case-lambda` clause. -/
def parse_arglist_body (args : LispObj) : Except RuntimeError (ArityObj × List LispObj) :=
  match args.cons_split with
  | some (hd, tl) =>
    match parse_arglist hd with
    | .error e => .error e
    | .ok arity =>
      match flatten_list "poorly-formed function body" tl with
      | .error e => .error e
      | .ok body => .ok (arity, body)
  | none =>
    .error (syntaxError ("invalid lambda expression: " ++
      (LispObj.LCons (.LSymbol "lambda") args).display))

/-- `Procedure::new(env, name, doc, body)`: asserts a non-empty clause
list (model guard) and draws the id from the root frame's counter. -/
def procedure_new (env : Nat) (name : Option String) (doc : Option String)
    (body : List (ArityObj × List LispObj)) : M Procedure := do
  if body.isEmpty then M.fail
  else do
    let id ← M.nextProcedureIdM env
    pure (.mk env name id doc body)

/-- `parse_lambda_args_body(args, body, parent)`. -/
def parse_lambda_args_body (args : LispObj) (body : List LispObj) (parent : Nat) :
    M Procedure := do
  let arity ← M.ofExcept (parse_arglist args)
  let doc := match body.head? with
    | some b0 => b0.string_ref
    | none => none
  match doc with
  | some docstr => do
    let p ← procedure_new parent none none [(arity, body)]
    pure (p.with_doc docstr)
  | none => procedure_new parent none none [(arity, body)]

/-- `parse_lambda(input, parent)`. -/
def parse_lambda (input : List LispObj) (parent : Nat) : M Procedure :=
  match input with
  | [] => M.throwE (syntaxError "lambda must at least have arg-list")
  | arg0 :: rest => parse_lambda_args_body arg0 rest parent

/-- `parse_multiple_arity(args, parent)` for `case-lambda`; indexing
`args[0]` of an empty slice is the model guard `none`. -/
def parse_multiple_arity (args : List LispObj) (parent : Nat) : M Procedure :=
  match args with
  | [] => M.fail
  | arg0 :: _ => do
    let docstr := arg0.string_ref
    let rest := if docstr.isNone then args else args.drop 1
    let clauses ← M.ofExcept (collectClauses rest)
    if clauses.isEmpty then
      M.throwE (syntaxError "(case-lambda) must contain at least one clause")
    else do
      let procd ← procedure_new parent none none clauses
      match docstr with
      | some sdoc => pure (procd.with_doc sdoc)
      | none => pure procd
where
  collectClauses : List LispObj → Except RuntimeError (List (ArityObj × List LispObj))
    | [] => .ok []
    | c :: more =>
      match parse_arglist_body c with
      | .error e => .error e
      | .ok p =>
        match collectClauses more with
        | .error e => .error e
        | .ok ps => .ok (p :: ps)

/-! ## Multi-arity dispatch (`src/evaluator/lambda.rs`) -/

/-- The binding loop of `parse_args_into`, with the remaining positional
names and the running `enumerate` index explicit.  The `assert!` that each
`let_new` finds no previous binding (it can fire only for duplicate
parameter names, after the initial `clear_bindings`) is the model guard
`none`. -/
def parse_args_into_go (arity : ArityObj) : List String → Nat → LispObj → Environment →
    Option (Except RuntimeError Environment)
  | [], _, args, env =>
    match arity.rest with
    | some restName =>
      let (old, env2) := env.let_new restName args
      if old.isSome then none
      else some (.ok env2)
    | none =>
      if args.is_nil then some (.ok env)
      else some (.error (arityError ("Extra args: " ++ args.display)))
  | name :: more, ind, args, env =>
    match args.cons_split with
    | some (hd, tl) =>
      let (old, env2) := env.let_new name hd
      if old.isSome then none
      else parse_args_into_go arity more (ind + 1) tl env2
    | none =>
      some (.error (arityError ("Too few args: expecting " ++
        toString arity.argnames.length ++ ", got " ++ toString ind)))

/-- `parse_args_into(arity, args, env)`: clears the frame, then binds
positional names to successive cars and the rest parameter (if any) to
the remainder; without a rest parameter the remainder must be `Nil`.
Mutation of the input frame is embedded by returning the updated frame;
the partially filled frame a failing attempt leaves behind is discarded
by every caller (the next attempt clears it again, and `clear_bindings`
erases everything an attempt can write). -/
def parse_args_into (arity : ArityObj) (args : LispObj) (env : Environment) :
    Option (Except RuntimeError Environment) :=
  parse_args_into_go arity arity.argnames 0 args env.clear_bindings

/-- The clause loop of `start_procedure_from`: every clause but the last
is tried and a failure moves on; the last clause's result — including its
specific arity error — is returned as is. -/
def start_procedure_from_go (args : LispObj) (env : Environment) :
    List (ArityObj × List LispObj) → Option (Except RuntimeError (Environment × List LispObj))
  | [] => none
  | [(arity, clauseBody)] =>
    match parse_args_into arity args env with
    | none => none
    | some (.error e) => some (.error e)
    | some (.ok env2) => some (.ok (env2, clauseBody))
  | (arity, clauseBody) :: more =>
    match parse_args_into arity args env with
    | none => none
    | some (.ok env2) => some (.ok (env2, clauseBody))
    | some (.error _) => start_procedure_from_go args env more

/-- `start_procedure_from(procd, args, reuse_env)`; the `assert!` on a
non-empty clause list is the model guard `none`. -/
def start_procedure_from (procd : Procedure) (args : LispObj) (reuse_env : Environment) :
    Option (Except RuntimeError (Environment × List LispObj)) :=
  if procd.body.isEmpty then none
  else start_procedure_from_go args reuse_env procd.body

/-- `start_procedure(procd, args)`: dispatch in a fresh child frame of the
procedure's closure environment. -/
def start_procedure (procd : Procedure) (args : LispObj) :
    Option (Except RuntimeError (Environment × List LispObj)) :=
  start_procedure_from procd args (Environment.from_parent procd.env)

/-! ### Specification-side characterizations of dispatch -/

/-- Whether the remaining positional names can all be peeled off `args`,
with a non-`Nil` remainder allowed only when a rest parameter exists. -/
def matchesGo : List String → LispObj → Bool → Bool
  | [], rest, hasRest => hasRest || rest.is_nil
  | _ :: more, args, hasRest =>
    match args.cons_split with
    | some (_, tl) => matchesGo more tl hasRest
    | none => false

/-- The claim's match condition for one `ArityObj` against an argument
list. -/
def ArityObj.matches (a : ArityObj) (args : LispObj) : Bool :=
  matchesGo a.argnames args a.rest.isSome

/-- The bindings a successful clause match produces, in insertion order:
positional names to successive cars, then the rest name (if any) to the
remainder. -/
def clauseBindingsGo : List String → LispObj → Option String → List (String × LispObj)
  | [], rest, some r => [(r, rest)]
  | [], _, none => []
  | n :: more, args, orest =>
    match args.cons_split with
    | some (hd, tl) => (n, hd) :: clauseBindingsGo more tl orest
    | none => []

def clauseBindings (a : ArityObj) (args : LispObj) : List (String × LispObj) :=
  clauseBindingsGo a.argnames args a.rest

/-- The first clause, in declaration order, whose arity matches. -/
def firstMatch : List (ArityObj × List LispObj) → LispObj → Option (ArityObj × List LispObj)
  | [], _ => none
  | c :: rest, args => if c.1.matches args then some c else firstMatch rest args

/-- No duplicate parameter names in a clause (the condition under which
the `assert!`s of `parse_args_into` cannot fire). -/
@[reducible]
def ArityObj.nodupNames (a : ArityObj) : Prop :=
  (a.argnames ++ (match a.rest with | some r => [r] | none => [])).Nodup

/-! ### Specification-side characterizations of the frame chain -/

/-- The frame indices of the parent chain from `id` outward (innermost
first), with the same fuel discipline as the chain walks. -/
def chainIds (s : Store) : Nat → Nat → Option (List Nat)
  | 0, _ => none
  | fuel + 1, id =>
    match s.getEnv id with
    | none => none
    | some e =>
      match e.parent with
      | some par => (chainIds s fuel par).map (fun l => id :: l)
      | none => some [id]

/-- The binding of `name` in the first frame of `ids` that defines it. -/
def firstBinding (s : Store) : List Nat → String → Option LispObj
  | [], _ => none
  | id :: rest, name =>
    match (s.getEnv id).bind (fun e => mapGet e.bindings name) with
    | some v => some v
    | none => firstBinding s rest name

/-- The first frame of `ids` that defines `name`. -/
def ownerFrame (s : Store) : List Nat → String → Option Nat
  | [], _ => none
  | id :: rest, name =>
    match (s.getEnv id).bind (fun e => mapGet e.bindings name) with
    | some _ => some id
    | none => ownerFrame s rest name

/-! ## The evaluator
(`src/evaluator/mod.rs`, `special_form_handlers.rs`, `tco.rs`,
`lambda.rs`, `macros.rs`)

Every potentially diverging function takes a `fuel` argument consumed by
one on each call into the mutual group; `fuel = 0` answers the model
guard `none`.  For every terminating Rust execution there is a fuel that
makes the embedded run return `some`, and the results then agree. -/

/-- The names of the `HANDLERS` table as a closed enumeration. -/
inductive SpecialForm : Type where
  | andF | beginF | caseLambdaF | catchErrorF | defineF | defineMacroF
  | ifF | lambdaF | letF | orF | quoteF | quasiquoteF | setF
  deriving DecidableEq, Repr

/-- `get_handler(s)`: scan of the static `HANDLERS` list. -/
def get_handler (s : String) : Option SpecialForm :=
  if s = "and" then some .andF
  else if s = "begin" then some .beginF
  else if s = "case-lambda" then some .caseLambdaF
  else if s = "catch-error" then some .catchErrorF
  else if s = "define" then some .defineF
  else if s = "define-macro" then some .defineMacroF
  else if s = "if" then some .ifF
  else if s = "lambda" then some .lambdaF
  else if s = "let" then some .letF
  else if s = "or" then some .orF
  else if s = "quote" then some .quoteF
  else if s = "quasiquote" then some .quasiquoteF
  else if s = "set!" then some .setF
  else none

/-- `quote_handler`: evaluates nothing. -/
def quote_handler (args : List LispObj) (_env : Nat) : M LispObj :=
  match args with
  | [a] => pure a
  | _ => M.throwE (syntaxError ("wrong number of arguments to quote: " ++
      (LispObj.to_lisp_list args).display))

/-- `lambda_handler`. -/
def lambda_handler (args : List LispObj) (env : Nat) : M LispObj := do
  let procd ← parse_lambda args env
  pure (.LProcedure procd)

/-- `case_lambda_handler`. -/
def case_lambda_handler (args : List LispObj) (env : Nat) : M LispObj := do
  let func ← parse_multiple_arity args env
  pure (.LProcedure func)

/-- `define_macro_handler`: registers the macro in the *top-level*
frame's macro table (evaluates nothing, so it sits outside the mutually
recursive group). -/
def define_macro_handler (args : List LispObj) (env : Nat) : M LispObj :=
  if args.length < 2 then
    M.throwE (syntaxError ("Not enough arguments to define-macro: " ++
      (LispObj.to_lisp_list args).display))
  else do
    let top ← M.getTopLevelM env
    match args with
    | [] => M.fail
    | arg0 :: restArgs =>
      match arg0.cons_split with
      | some (hd, tl) =>
        match hd with
        | .LSymbol macro_name => do
          let func ← parse_lambda_args_body tl restArgs env
          let value := LispObj.LProcedure (func.with_name macro_name)
          let allowRed ← M.lookupExpectM env "*allow-redefine*"
          let old ← M.letMacroM top macro_name value
          match old with
          | some _ =>
            if allowRed.falsey then
              M.throwE (redefineError ("macro " ++ macro_name ++ " is already bound"))
            else pure (.LSymbol macro_name)
          | none => pure (.LSymbol macro_name)
        | _ => M.throwE (syntaxError ("invalid macro definition: " ++
            (LispObj.to_lisp_list args).display))
      | none => M.throwE (syntaxError ("invalid macro definition: " ++
          (LispObj.to_lisp_list args).display))

mutual

/-- `eval(form, env)`: one iteration of the source's rewriting loop;
`continue` is a recursive call. -/
def eval : Nat → LispObj → Nat → M LispObj
  | 0, _, _ => M.fail
  | fuel + 1, form, env =>
    if form.is_self_evaluating then pure form
    else
      match form.symbol_ref with
      | some name => do
        let r ← M.lookupM env name
        match r with
        | some v => pure v
        | none => M.throwE (boundError ("symbol '" ++ name ++ " is not bound"))
      | none =>
        match form.cons_split with
        | some (hd, tl) =>
          match hd.symbol_ref with
          | some sname =>
            match get_handler sname with
            | some sf => do
              let tl_vec ← M.ofExcept (flatten_list
                ("(" ++ sname ++ ") invalid syntax (ill-formed arg list)") tl)
              run_special_form fuel sf tl_vec env
            | none => do
              let expanded ← try_macro_expand fuel sname tl env
              match expanded with
              | some obj => eval fuel obj env
              | none => eval_application fuel hd tl env
          | none => eval_application fuel hd tl env
        | none => M.throwE (runtimeErrorMsg "eval-error"
            ("unable to evaluate: " ++ form.display))
termination_by structural fuel _ _ => fuel

/-- The shared tail of the source's loop body: evaluate operator and
operands, then `apply`. -/
def eval_application : Nat → LispObj → LispObj → Nat → M LispObj
  | 0, _, _, _ => M.fail
  | fuel + 1, hd, tl, env => do
    let func ← eval fuel hd env
    let args ← map_eval fuel tl env
    apply fuel func args env
termination_by structural fuel _ _ _ => fuel

/-- `map_eval(ls, env)`: element-wise left-to-right evaluation of a
proper list (the dead special-character branch dropped, see
`flatten_list`). -/
def map_eval : Nat → LispObj → Nat → M LispObj
  | 0, _, _ => M.fail
  | fuel + 1, ls, env =>
    if ls.is_nil then pure .LNil
    else
      match ls.cons_split with
      | some (hd, tl) => do
        let this ← eval fuel hd env
        let rest ← map_eval fuel tl env
        pure (.LCons this rest)
      | none => M.throwE (syntaxError ("not a proper list: " ++ ls.display))
termination_by structural fuel _ _ => fuel

/-- `apply(procedure, arg, env)`.  Calling through a native function
pointer is outside the embedding (model guard); a failing procedure
application is wrapped with the callee as `source` via `new_from`. -/
def apply : Nat → LispObj → LispObj → Nat → M LispObj
  | 0, _, _, _ => M.fail
  | fuel + 1, procedure, arg, _env =>
    match procedure with
    | .LNativeFunc _ _ => M.fail
    | .LProcedure procd => fun s =>
      (match lambda_apply fuel procd arg s with
      | none => none
      | some (.ok obj, s2) => some (.ok obj, s2)
      | some (.error e, s2) =>
        some (.error (RuntimeError.new_from e (.LProcedure procd)), s2))
    | _ => M.throwE (typeError ("expecting procedure, got " ++ procedure.display))
termination_by structural fuel _ _ _ => fuel

/-- `lambda_apply(func, arg)`: bind the arguments, evaluate the body
until its last expression, then run the tail-call loop. -/
def lambda_apply : Nat → Procedure → LispObj → M LispObj
  | 0, _, _ => M.fail
  | fuel + 1, func, arg => do
    let (env, lte) ← lambda_apply_until_last fuel func arg
    lambda_apply_loop fuel func env lte
termination_by structural fuel _ _ => fuel

/-- The `loop` of `lambda_apply`: a tail call to a procedure whose id
equals the running procedure's id is trampolined; anything else is an
ordinary `eval`.  The `Rc::try_unwrap` frame-reuse branch is unobservable
(a uniquely owned frame has no other reader) and is embedded as the
fresh-frame branch, the correctness-preserving fallback of spec §4.5. -/
def lambda_apply_loop : Nat → Procedure → Nat → LispObj → M LispObj
  | 0, _, _, _ => M.fail
  | fuel + 1, func, env, last_to_eval =>
    match last_to_eval.cons_split with
    | some (hd, tl) =>
      match hd.symbol_ref with
      | some sname => do
        let lookup_attempt ← M.lookupM env sname
        match lookup_attempt.bind (fun v => v.procedure_id) with
        | some pid =>
          if pid = func.id then do
            let args ← map_eval fuel tl env
            let (env2, lte2) ← lambda_apply_until_last fuel func args
            lambda_apply_loop fuel func env2 lte2
          else eval fuel last_to_eval env
        | none => eval fuel last_to_eval env
      | none => eval fuel last_to_eval env
    | none => eval fuel last_to_eval env
termination_by structural fuel _ _ _ => fuel

/-- `lambda_apply_until_last(func, arg)`. -/
def lambda_apply_until_last : Nat → Procedure → LispObj → M (Nat × LispObj)
  | 0, _, _ => M.fail
  | fuel + 1, func, arg => do
    let (env, body) ← M.ofPure (start_procedure func arg)
    let envId ← M.allocM env
    special_form_tco_until_last fuel "begin" body envId
termination_by structural fuel _ _ => fuel

/-- `special_form_tco_until_last(form_name, args, env)`: the trampoline
driver loop; the `binary_search` over the sorted `TCO_BUILTINS` is a
membership test among `begin`/`if`/`let`. -/
def special_form_tco_until_last : Nat → String → List LispObj → Nat → M (Nat × LispObj)
  | 0, _, _, _ => M.fail
  | fuel + 1, name, args, env => do
    let (env2, last) ←
      if name = "begin" then do
        let l ← begin_until_last fuel args env
        pure (env, l)
      else if name = "if" then do
        let l ← if_until_last fuel args env
        pure (env, l)
      else if name = "let" then
        let_until_last fuel args env
      else M.fail
    match last.cons_split with
    | some (hd, tl) =>
      match hd.symbol_ref with
      | some sname =>
        if sname = "begin" ∨ sname = "if" ∨ sname = "let" then do
          let vec ← M.ofExcept (flatten_list "ill-formed-list" tl)
          special_form_tco_until_last fuel sname vec env2
        else pure (env2, last)
      | none => pure (env2, last)
    | none => pure (env2, last)
termination_by structural fuel _ _ _ => fuel

/-- `begin_until_last(args, env)`: evaluate all but the last expression,
return the last unevaluated (`Nil` for an empty body). -/
def begin_until_last : Nat → List LispObj → Nat → M LispObj
  | 0, _, _ => M.fail
  | _ + 1, [], _ => pure .LNil
  | _ + 1, [lastE], _ => pure lastE
  | fuel + 1, a :: rest, env => do
    let _ ← eval fuel a env
    begin_until_last fuel rest env
termination_by structural fuel _ _ => fuel

/-- `if_until_last(args, env)`. -/
def if_until_last : Nat → List LispObj → Nat → M LispObj
  | 0, _, _ => M.fail
  | fuel + 1, args, env =>
    match args with
    | [cond, trueval, falseval] => do
      let truth ← eval fuel cond env
      if truth.falsey then pure falseval else pure trueval
    | _ => M.throwE (syntaxError ("wrong number of arguments to if: " ++
        (LispObj.to_lisp_list args).display))
termination_by structural fuel _ _ => fuel

/-- `let_until_last(args, env)`: allocates the child frame first (as the
source does), binds, and returns the child frame with the last body
expression. -/
def let_until_last : Nat → List LispObj → Nat → M (Nat × LispObj)
  | 0, _, _ => M.fail
  | fuel + 1, args, env => do
    let newEnv ← M.allocM (Environment.from_parent env)
    match args with
    | [] => M.throwE (syntaxError "let must have bindings")
    | bindings0 :: rest => do
      let bindings ← M.ofExcept (flatten_list "malformed bindings list" bindings0)
      let_bind_loop fuel bindings newEnv
      let last ← begin_until_last fuel rest newEnv
      pure (newEnv, last)
termination_by structural fuel _ _ => fuel

/-- The binding loop of `let_until_last` (the `unpack_args!` checks of
each binding in source order). -/
def let_bind_loop : Nat → List LispObj → Nat → M Unit
  | 0, _, _ => M.fail
  | _ + 1, [], _ => pure ()
  | fuel + 1, binding :: more, newEnv => do
    let unwrapped ← M.ofExcept (flatten_list "malformed binding" binding)
    match unwrapped with
    | [] => M.throwE (arityError "Too few args")
    | [_] => M.throwE (arityError "Too few args")
    | [nameObj, valueExpr] =>
      match nameObj with
      | .LSymbol nm => do
        let evaluated ← eval fuel valueExpr newEnv
        let evaluated2 := match evaluated with
          | .LProcedure f => LispObj.LProcedure (f.with_name nm)
          | other => other
        let _ ← M.letNewM newEnv nm evaluated2
        let_bind_loop fuel more newEnv
      | _ => M.throwE (syntaxError ("malformed binding: expected symbol, got " ++
          nameObj.display))
    | lst => M.throwE (arityError ("Too many args: expected 2, got " ++
        toString lst.length))
termination_by structural fuel _ _ => fuel

/-- `handle_special_form_tco(form_name, args, env)`: run the trampoline,
then one real `eval` of the final expression in the final environment. -/
def handle_special_form_tco : Nat → String → List LispObj → Nat → M LispObj
  | 0, _, _, _ => M.fail
  | fuel + 1, name, args, env => do
    let (env2, val) ← special_form_tco_until_last fuel name args env
    eval fuel val env2
termination_by structural fuel _ _ _ => fuel

/-- `begin_handler`. -/
def begin_handler : Nat → List LispObj → Nat → M LispObj
  | 0, _, _ => M.fail
  | fuel + 1, args, env => handle_special_form_tco fuel "begin" args env
termination_by structural fuel _ _ => fuel

/-- `if_handler`. -/
def if_handler : Nat → List LispObj → Nat → M LispObj
  | 0, _, _ => M.fail
  | fuel + 1, args, env => handle_special_form_tco fuel "if" args env
termination_by structural fuel _ _ => fuel

/-- `let_handler`. -/
def let_handler : Nat → List LispObj → Nat → M LispObj
  | 0, _, _ => M.fail
  | fuel + 1, args, env => handle_special_form_tco fuel "let" args env
termination_by structural fuel _ _ => fuel

/-- `and_handler`. -/
def and_handler : Nat → List LispObj → Nat → M LispObj
  | 0, _, _ => M.fail
  | fuel + 1, args, env => and_loop fuel (.LSymbol "true") args env
termination_by structural fuel _ _ => fuel

/-- The `for` loop of `and_handler`: stop at the first falsey value. -/
def and_loop : Nat → LispObj → List LispObj → Nat → M LispObj
  | 0, _, _, _ => M.fail
  | _ + 1, val, [], _ => pure val
  | fuel + 1, _, a :: rest, env => do
    let val ← eval fuel a env
    if val.falsey then pure val else and_loop fuel val rest env
termination_by structural fuel _ _ _ => fuel

/-- `or_handler`. -/
def or_handler : Nat → List LispObj → Nat → M LispObj
  | 0, _, _ => M.fail
  | fuel + 1, args, env => or_loop fuel (.LSymbol "false") args env
termination_by structural fuel _ _ => fuel

/-- The `for` loop of `or_handler`: stop at the first truthy value. -/
def or_loop : Nat → LispObj → List LispObj → Nat → M LispObj
  | 0, _, _, _ => M.fail
  | _ + 1, val, [], _ => pure val
  | fuel + 1, _, a :: rest, env => do
    let val ← eval fuel a env
    if val.falsey then or_loop fuel val rest env else pure val
termination_by structural fuel _ _ _ => fuel

/-- `catch_error_handler`: the body via `begin_handler`; a propagating
`RuntimeError` becomes an ordinary `Error` value. -/
def catch_error_handler : Nat → List LispObj → Nat → M LispObj
  | 0, _, _ => M.fail
  | fuel + 1, args, env => fun s =>
    (match begin_handler fuel args env s with
    | none => none
    | some (.ok obj, s2) => some (.ok obj, s2)
    | some (.error e, s2) => some (.ok e.into_lisp_obj, s2))
termination_by structural fuel _ _ => fuel

/-- `define_handler`: evaluate (or build) the value, then bind the name
in the *top-level* frame; redefinition is an error unless the binding
`*allow-redefine*` is truthy.  Indexing `args[0]` of an empty slice in
the too-few-arguments message is the model guard `none`. -/
def define_handler : Nat → List LispObj → Nat → M LispObj
  | 0, _, _ => M.fail
  | fuel + 1, args, env =>
    match args with
    | [] => M.fail
    | arg0 :: restArgs =>
      if args.length < 2 then
        M.throwE (syntaxError ("Not enough arguments to define " ++ arg0.display))
      else do
        let nv ←
          (match arg0, restArgs with
          | .LSymbol nm, [valueExpr] => do
            let v ← eval fuel valueExpr env
            match v with
            | .LProcedure p => pure (nm, LispObj.LProcedure (p.with_name nm))
            | val => pure (nm, val)
          | _, _ =>
            match arg0.cons_split with
            | some (hd, tl) =>
              match hd with
              | .LSymbol func_name => do
                let func ← parse_lambda_args_body tl restArgs env
                pure (func_name, LispObj.LProcedure (func.with_name func_name))
              | _ => M.throwE (syntaxError ("invalid argumetnts to define: " ++
                  (LispObj.to_lisp_list args).display))
            | none => M.throwE (syntaxError
                ("define must have symbol name to define, not " ++ arg0.display)) :
            M (String × LispObj))
        let top ← M.getTopLevelM env
        let allowRed ← M.lookupExpectM top "*allow-redefine*"
        let old ← M.letNewM top nv.1 nv.2
        match old with
        | some _ =>
          if allowRed.falsey then
            M.throwE (redefineError ("symbol " ++ nv.1 ++ " is already bound"))
          else pure (.LSymbol nv.1)
        | none => pure (.LSymbol nv.1)
termination_by structural fuel _ _ => fuel

/-- `set_handler`: evaluate the value, then `swap_values` along the
chain; unbound names are a bound-error.  (The `unpack_args!` checks come
first, in source order.) -/
def set_handler : Nat → List LispObj → Nat → M LispObj
  | 0, _, _ => M.fail
  | fuel + 1, args, env =>
    match args with
    | [] => M.throwE (arityError "Too few args")
    | arg0 :: rest =>
      match arg0 with
      | .LSymbol name =>
        match rest with
        | [] => M.throwE (arityError "Too few args")
        | valExpr :: rest2 =>
          if rest2.isEmpty then do
            let new_value ← eval fuel valExpr env
            let old ← M.swapValuesM env name new_value
            match old with
            | some old_val => pure old_val
            | none => M.throwE (boundError ("cannot set! unbound symbol " ++ name))
          else
            M.throwE (arityError ("Too many args: expected 2, got " ++
              toString args.length))
      | other => M.throwE (typeError ("expected symbol, got " ++ other.display))
termination_by structural fuel _ _ => fuel

/-- `quasiquote_handler`. -/
def quasiquote_handler : Nat → List LispObj → Nat → M LispObj
  | 0, _, _ => M.fail
  | fuel + 1, args, env =>
    match args with
    | [a] => quasiquote_helper fuel a env
    | _ => M.throwE (syntaxError ("quasiquote must have exactly 1 argument, given " ++
        (LispObj.to_lisp_list args).display))
termination_by structural fuel _ _ => fuel

/-- `quasiquote_helper`. -/
def quasiquote_helper : Nat → LispObj → Nat → M LispObj
  | 0, _, _ => M.fail
  | fuel + 1, obj, env =>
    match obj.cons_split with
    | some (hd, tl) =>
      match hd.symbol_ref, tl.cons_split with
      | some sname, some (hd2, tl2) =>
        if sname == "unquote" && tl2.is_nil then eval fuel hd2 env
        else M.throwE (syntaxError ("quasiquote: invalid unquote, `," ++
          tl.display ++ "`"))
      | some _, none => do
        let tail ← quasiquote_helper fuel tl env
        pure (.LCons hd tail)
      | none, _ => do
        let head ← quasiquote_helper fuel hd env
        let next ← quasiquote_helper fuel tl env
        pure (.LCons head next)
    | none => pure obj
termination_by structural fuel _ _ => fuel

/-- `try_macro_expand(macro_name, args, env)`: apply the registered
macro procedure to the unevaluated arguments; a failing expansion is
wrapped as a macro-expansion-error with the failure as cause.  A
non-procedure macro-table entry would panic in `unwrap_proc` (model
guard). -/
def try_macro_expand : Nat → String → LispObj → Nat → M (Option LispObj)
  | 0, _, _, _ => M.fail
  | fuel + 1, macro_name, args, env => do
    let handler ← M.lookupMacroM env macro_name
    match handler with
    | some hobj =>
      match hobj with
      | .LProcedure macro_expander => fun s =>
        (match lambda_apply fuel macro_expander args s with
        | none => none
        | some (.ok val, s2) => some (.ok (some val), s2)
        | some (.error e, s2) =>
          some (.error (macroErrorCause e ("error in expansion of macro " ++ macro_name)), s2))
      | _ => M.fail
    | none => pure none
termination_by structural fuel _ _ _ => fuel

/-- Dispatch from the `HANDLERS` table entry to the handler. -/
def run_special_form : Nat → SpecialForm → List LispObj → Nat → M LispObj
  | 0, _, _, _ => M.fail
  | fuel + 1, sf, args, env =>
    match sf with
    | .andF => and_handler fuel args env
    | .beginF => begin_handler fuel args env
    | .caseLambdaF => case_lambda_handler args env
    | .catchErrorF => catch_error_handler fuel args env
    | .defineF => define_handler fuel args env
    | .defineMacroF => define_macro_handler args env
    | .ifF => if_handler fuel args env
    | .lambdaF => lambda_handler args env
    | .letF => let_handler fuel args env
    | .orF => or_handler fuel args env
    | .quoteF => quote_handler args env
    | .quasiquoteF => quasiquote_handler fuel args env
    | .setF => set_handler fuel args env
termination_by structural fuel _ _ _ => fuel
end

/-! ## Concrete frames and stores used to instantiate the theorems -/

/-- The name-adjustment `define` applies to an evaluated procedure
value. -/
def defineAdjust (n : String) (v : LispObj) : LispObj :=
  match v with
  | .LProcedure p => .LProcedure (p.with_name n)
  | val => val

/-- The top-frame counter bump `next_procedure_id` performs. -/
def bumpCounter (e : Environment) : Environment :=
  { e with max_procedure_id := e.max_procedure_id + 1 }

/-- A concrete top-level frame: `x` bound, `*allow-redefine*` false. -/
def envGlobal : Environment :=
  { parent := none,
    bindings := [("x", .LInteger 1), ("*allow-redefine*", .LSymbol "false")],
    max_procedure_id := 0, macros := none, special_chars := none }

/-- A concrete child frame of `envGlobal` with a local binding `y`. -/
def envChild : Environment :=
  { parent := some 0, bindings := [("y", .LInteger 5)],
    max_procedure_id := 0, macros := none, special_chars := none }

/-- The two-frame store: frame 0 global, frame 1 a nested scope. -/
def storeTwo : Store := [envGlobal, envChild]

end RustyLisp

namespace RustyLisp

/-! ## Theorems about the persistent vector -/

/-- `nextPowerOfTwo.go` never returns less than `n`. -/
theorem le_nextPowerOfTwo_go (n : Nat) :
    ∀ (power : Nat) (h : 0 < power), n ≤ Nat.nextPowerOfTwo.go n power h := by
  intro power h
  unfold Nat.nextPowerOfTwo.go
  split
  · exact le_nextPowerOfTwo_go n (power * 2) (Nat.mul_pos h (by decide))
  · omega
termination_by power => n - power
decreasing_by
  apply Nat.nextPowerOfTwo_dec <;> assumption

/-- `n.next_power_of_two()` is at least `n`. -/
theorem le_nextPowerOfTwo (n : Nat) : n ≤ n.nextPowerOfTwo :=
  le_nextPowerOfTwo_go n 1 (by decide)

/-- Inserting at a valid index of a well-formed trie succeeds, the new trie
stores the item at that index, agrees with the old trie everywhere else,
and is well-formed again. -/
theorem PersistentTrieNode.insert_spec {T : Type} :
    ∀ (t : PersistentTrieNode T) (cap i : Nat) (x : T),
      t.wfb cap = true → i < cap →
      ∃ t2, t.insert i cap x = some t2 ∧
        t2.lookup i cap = some x ∧
        (∀ j, j < cap → j ≠ i → t2.lookup j cap = t.lookup j cap) ∧
        t2.wfb cap = true := by
  intro t
  induction t with
  | leaf a b =>
    intro cap i x hwf hi
    have hcap : cap = 2 := by simpa [wfb] using hwf
    subst hcap
    interval_cases i
    · refine ⟨.leaf (some x) b, rfl, rfl, ?_, rfl⟩
      intro j hj hne
      interval_cases j
      · exact absurd rfl hne
      · rfl
    · refine ⟨.leaf a (some x), rfl, rfl, ?_, rfl⟩
      intro j hj hne
      interval_cases j
      · rfl
      · exact absurd rfl hne
  | node l r ihl ihr =>
    intro cap i x hwf hi
    simp only [wfb, Bool.and_eq_true, decide_eq_true_eq] at hwf
    obtain ⟨⟨⟨hcap2, hcapeven⟩, hwl⟩, hwr⟩ := hwf
    have hhalfpos : 0 < cap / 2 := by omega
    by_cases hside : i < cap / 2
    · obtain ⟨t2, hins, hlook, hother, hwf2⟩ := ihl (cap / 2) i x hwl hside
      refine ⟨.node t2 r, ?_, ?_, ?_, ?_⟩
      · simp [insert, hside, hins]
      · simp [lookup, hside, hlook]
      · intro j hj hne
        by_cases hjside : j < cap / 2
        · simpa [lookup, hjside] using hother j hjside hne
        · simp [lookup, hjside]
      · simp [wfb, hcap2, hcapeven, hwf2, hwr]
    · have hmod_eq : ∀ m, ¬ m < cap / 2 → m < cap → m % (cap / 2) = m - cap / 2 := by
        intro m hm hmcap
        rw [Nat.mod_eq_sub_mod (by omega), Nat.mod_eq_of_lt (by omega)]
      have himodlt : i % (cap / 2) < cap / 2 := Nat.mod_lt _ hhalfpos
      obtain ⟨t2, hins, hlook, hother, hwf2⟩ := ihr (cap / 2) (i % (cap / 2)) x hwr himodlt
      refine ⟨.node l t2, ?_, ?_, ?_, ?_⟩
      · simp [insert, hside, hins]
      · simp [lookup, hside, hlook]
      · intro j hj hne
        by_cases hjside : j < cap / 2
        · simp [lookup, hjside]
        · have hjne : j % (cap / 2) ≠ i % (cap / 2) := by
            rw [hmod_eq i hside hi, hmod_eq j hjside hj]
            omega
          simpa [lookup, hjside] using hother (j % (cap / 2)) (Nat.mod_lt _ hhalfpos) hjne
      · simp [wfb, hcap2, hcapeven, hwf2, hwl]

/-- C1: for every well-formed `PersistentVec` `v`, every index `i < v.size`
and every value `x`, `v.insert i x` returns `some v2` with
`v2.lookup i = some x` and `v2.lookup j = v.lookup j` for every valid
`j ≠ i`.  (That `v.lookup i` itself is unchanged by the call is automatic
in this embedding: `insert` is a pure function on an immutable value, as
the structurally shared Rust original is observationally.) -/
theorem c1_persistent_vec_insert_spec {T : Type} (v : PersistentVec T) (hwf : v.Wf)
    (i : Nat) (x : T) (hi : i < v.size) :
    ∃ v2, v.insert i x = some v2 ∧
      v2.lookup i = some x ∧
      ∀ j, j < v.size → j ≠ i → v2.lookup j = v.lookup j := by
  obtain ⟨hroot, hsz, hcap⟩ := hwf
  have hicap : i < v.capacity := lt_of_lt_of_le hi hsz
  obtain ⟨t2, hins, hlook, hother, _⟩ :=
    PersistentTrieNode.insert_spec v.root v.capacity i x hroot hicap
  have hnot : ¬ i ≥ v.size := Nat.not_le.mpr hi
  refine ⟨{ v with root := t2 }, ?_, ?_, ?_⟩
  · simp [PersistentVec.insert, hnot, hins]
  · simp [PersistentVec.lookup, hnot, hcap, hlook]
  · intro j hj hne
    have hjnot : ¬ j ≥ v.size := Nat.not_le.mpr hj
    have hjcap : j < v.capacity := lt_of_lt_of_le hj hsz
    simp [PersistentVec.lookup, hjnot, hcap, hother j hjcap hne]

theorem c1_witness :
    vecThree.Wf ∧ 1 < vecThree.size ∧
    ∃ v2, vecThree.insert 1 99 = some v2 ∧
      v2.lookup 1 = some 99 ∧
      ∀ j, j < vecThree.size → j ≠ 1 → v2.lookup j = vecThree.lookup j :=
  ⟨by decide, by decide, c1_persistent_vec_insert_spec vecThree (by decide) 1 99 (by decide)⟩

/-- C9: out-of-bounds `lookup` and `insert` return `None` at the public
interface.  The statement holds for an arbitrary `root` trie — no
well-formedness hypothesis — because the bounds check precedes any trie
descent. -/
theorem c9_persistent_vec_oob {T : Type} (v : PersistentVec T) (i : Nat) (x : T)
    (h : v.size ≤ i) :
    v.lookup i = none ∧ v.insert i x = none := by
  constructor
  · simp [PersistentVec.lookup, h]
  · simp [PersistentVec.insert, h]

theorem c9_witness :
    vecThree.size ≤ 3 ∧ (vecThree.lookup 3 = none ∧ vecThree.insert 3 99 = none) :=
  ⟨by decide, c9_persistent_vec_oob vecThree 3 99 (by decide)⟩

/-- `from_iter_mut` on a trie of capacity `2 ^ (k + 1)` consumes exactly the
first `2 ^ (k + 1)` elements of the source, filling the leaves left to
right, whatever the `count` argument is. -/
theorem PersistentTrieNode.from_iter_mut_spec {T : Type} :
    ∀ (k : Nat) (source : List T) (count : Nat),
      (PersistentTrieNode.from_iter_mut source count (2 ^ (k + 1))).2 =
          source.drop (2 ^ (k + 1)) ∧
      ∀ i, i < 2 ^ (k + 1) →
        (PersistentTrieNode.from_iter_mut source count (2 ^ (k + 1))).1.lookup i (2 ^ (k + 1)) =
          source[i]? := by
  intro k
  induction k with
  | zero =>
    intro source count
    rw [from_iter_mut]
    norm_num
    constructor
    · cases source with
      | nil => rfl
      | cons a t => cases t <;> rfl
    · intro i hi
      interval_cases i
      · simpa [lookup] using (List.head?_eq_getElem? source).symm ▸ rfl
      · cases source with
        | nil => simp [lookup]
        | cons a t => simp [lookup, List.head?_eq_getElem?]
  | succ k ih =>
    intro source count
    have hge4 : 4 ≤ 2 ^ (k + 1 + 1) := by
      have h4 : 2 ^ (k + 1 + 1) = 4 * 2 ^ k := by ring
      have hp : 1 ≤ 2 ^ k := Nat.one_le_two_pow
      omega
    have hhalf : 2 ^ (k + 1 + 1) / 2 = 2 ^ (k + 1) := by
      have h2 : 2 ^ (k + 1 + 1) = 2 ^ (k + 1) * 2 := by ring
      omega
    rw [from_iter_mut, if_neg (by omega), if_neg (by omega), if_neg (by omega), hhalf]
    obtain ⟨ihl2, ihl1⟩ := ih source (2 ^ (k + 1))
    rcases hL : from_iter_mut source (2 ^ (k + 1)) (2 ^ (k + 1)) with ⟨L, source1⟩
    rw [hL] at ihl2 ihl1
    dsimp only at ihl2 ihl1
    subst ihl2
    obtain ⟨ihr2, ihr1⟩ :=
      ih (List.drop (2 ^ (k + 1)) source)
        (if count ≥ 2 ^ (k + 1) then count - 2 ^ (k + 1) else 0)
    rcases hR : from_iter_mut (List.drop (2 ^ (k + 1)) source)
        (if count ≥ 2 ^ (k + 1) then count - 2 ^ (k + 1) else 0) (2 ^ (k + 1)) with ⟨R, source2⟩
    rw [hR] at ihr2 ihr1
    dsimp only at ihr2 ihr1
    subst ihr2
    dsimp only
    rw [hL]
    dsimp only
    rw [hR]
    dsimp only
    constructor
    · rw [List.drop_drop]
      congr 1
      ring
    · intro i hi
      simp only [lookup, hhalf]
      by_cases hside : i < 2 ^ (k + 1)
      · simpa [hside] using ihl1 i hside
      · have hlt2 : i < 2 ^ (k + 1) * 2 := by
          have h2 : 2 ^ (k + 1 + 1) = 2 ^ (k + 1) * 2 := by ring
          omega
        have himod : i % 2 ^ (k + 1) = i - 2 ^ (k + 1) := by
          rw [Nat.mod_eq_sub_mod (by omega), Nat.mod_eq_of_lt (by omega)]
        have hmodlt : i % 2 ^ (k + 1) < 2 ^ (k + 1) :=
          Nat.mod_lt _ (Nat.pos_pow_of_pos _ (by decide))
        rw [if_neg hside, ihr1 _ hmodlt, List.getElem?_drop, himod]
        congr 1
        omega

/-- `PersistentVec::from_iter_mut(iter, size)` builds a vector whose
`len` is the `size` argument — whatever the element count — and whose
`lookup i` is the `i`-th element of the source for every `i < size`
(`none` once the source is exhausted, since `next()` fills leaves with
`None`). -/
theorem from_iter_mut_len_lookup {T : Type} (l : List T) (n : Nat) :
    (PersistentVec.from_iter_mut l n).len = n ∧
    ∀ i, i < n → (PersistentVec.from_iter_mut l n).lookup i = l[i]? := by
  constructor
  · rfl
  · intro i hi
    obtain ⟨k, hk, hle⟩ :
        ∃ k, (let c := n.nextPowerOfTwo; if c < 2 then 2 else c) = 2 ^ (k + 1) ∧
          n ≤ (let c := n.nextPowerOfTwo; if c < 2 then 2 else c) := by
      obtain ⟨m, hm⟩ := Nat.isPowerOfTwo_nextPowerOfTwo n
      have hlen := le_nextPowerOfTwo n
      by_cases hsmall : n.nextPowerOfTwo < 2
      · exact ⟨0, by simp [hsmall], by simp [hsmall]; omega⟩
      · have hm1 : 1 ≤ m := by
          by_contra hm0
          have : m = 0 := by omega
          rw [this] at hm
          simp at hm
          omega
        refine ⟨m - 1, ?_, ?_⟩
        · simp only [if_neg hsmall]
          rw [hm]
          congr 1
          omega
        · simpa [hsmall] using hlen
    have hnot : ¬ i ≥ n := Nat.not_le.mpr hi
    simp only [PersistentVec.from_iter_mut, PersistentVec.lookup]
    rw [if_neg ?_]
    swap
    · simpa using hnot
    · simp only at hk hle ⊢
      rw [hk]
      rw [if_pos (by have := Nat.one_le_two_pow (n := k); omega)]
      exact (PersistentTrieNode.from_iter_mut_spec k l n).2 i (by omega)

/-- C5 counterexample: an iterator that produces no elements but legally
reports a size-hint upper bound of 1 (e.g. a filtered one-element
iterator, or the error-cutting `Adapter` of `collect_into_vector`, whose
`size_hint` passes the inner bound through) yields a vector whose `len`
is 1, not the produced count 0 — the `(_, Some(high))` branch trusts the
bound as the count. -/
theorem c5_counterexample :
    (PersistentVec.from_iter ([] : List Nat) (some 1)).len ≠ ([] : List Nat).length := by
  decide

/-- C5 (amended): building a `PersistentVec` from a finite iterator sets
`len` to the iterator's size-hint upper bound when one is reported and
to the true element count when none is (the materialize-first branch);
in both cases `lookup i` yields the `i`-th produced element for every
`i < len` that exists, and `none` for slots past the produced elements.
The original claim `len = produced count` holds exactly when the
reported bound equals the produced count — in particular for exact-size
iterators — and fails otherwise. -/
theorem c5_persistent_vec_from_iter_spec {T : Type} (l : List T) (hint : Option Nat) :
    (PersistentVec.from_iter l hint).len =
      (match hint with | some high => high | none => l.length) ∧
    ∀ i, i < (PersistentVec.from_iter l hint).len →
      (PersistentVec.from_iter l hint).lookup i = l[i]? := by
  cases hint with
  | some high => exact from_iter_mut_len_lookup l high
  | none => exact from_iter_mut_len_lookup l l.length

theorem c5_witness :
    ((PersistentVec.from_iter [5, 7, 9] (some 3)).len = 3) ∧
    (1 < (PersistentVec.from_iter [5, 7, 9] (some 3)).len) ∧
    ((PersistentVec.from_iter [5, 7, 9] (some 3)).lookup 1 = [5, 7, 9][1]?) ∧
    ((PersistentVec.from_iter [2, 4] none).len = [2, 4].length) ∧
    (0 < (PersistentVec.from_iter [2, 4] none).len) ∧
    ((PersistentVec.from_iter [2, 4] none).lookup 0 = [2, 4][0]?) :=
  ⟨(c5_persistent_vec_from_iter_spec [5, 7, 9] (some 3)).1, by decide,
    (c5_persistent_vec_from_iter_spec [5, 7, 9] (some 3)).2 1 (by decide),
    (c5_persistent_vec_from_iter_spec [2, 4] none).1, by decide,
    (c5_persistent_vec_from_iter_spec [2, 4] none).2 0 (by decide)⟩

/-! ## Reduction lemmas for the evaluation monad -/

@[simp]
theorem M.bind_apply {α β : Type} (x : M α) (f : α → M β) (s : Store) :
    (x >>= f) s =
      match x s with
      | none => none
      | some (.error e, s2) => some (.error e, s2)
      | some (.ok a, s2) => f a s2 := rfl

@[simp]
theorem M.pure_apply {α : Type} (a : α) (s : Store) :
    (pure a : M α) s = some (.ok a, s) := rfl

@[simp]
theorem M.throwE_apply {α : Type} (e : RuntimeError) (s : Store) :
    (M.throwE e : M α) s = some (.error e, s) := rfl

@[simp]
theorem M.fail_apply {α : Type} (s : Store) : (M.fail : M α) s = none := rfl

/-! ## C4: traceback flattening -/

/-- C4: `into_traceback` returns exactly the errors of the cause chain,
outermost first and innermost cause last, each with its cause detached
(so the first element is the outermost error minus its cause, and each
subsequent element is the next inner cause); its length is the chain's
length. -/
theorem c4_into_traceback_spec (e : RuntimeError) :
    e.into_traceback = e.chain.map RuntimeError.detach_cause ∧
    e.into_traceback.length = e.chain.length := by
  have h : e.into_traceback = e.chain.map RuntimeError.detach_cause := by
    induction e using RuntimeError.into_traceback.induct with
    | case1 n v s =>
      simp [RuntimeError.into_traceback, RuntimeError.chain, RuntimeError.detach_cause]
    | case2 n v c s ih =>
      simp [RuntimeError.into_traceback, RuntimeError.chain, RuntimeError.detach_cause, ih]
  exact ⟨h, by simp [h]⟩

/-! ## C7: `catch-error` -/

/-- C7: `catch_error_handler` returns `Ok` wherever a `RuntimeError`
would otherwise propagate: when the `begin`-evaluated body fails, the
error is returned converted into a first-class `Error` value (with the
body's store effects kept); when it succeeds, the body's value is
returned unchanged. -/
theorem c7_catch_error_spec (fuel : Nat) (args : List LispObj) (env : Nat) (s : Store) :
    (∀ v s2, begin_handler fuel args env s = some (.ok v, s2) →
        catch_error_handler (fuel + 1) args env s = some (.ok v, s2)) ∧
    (∀ e s2, begin_handler fuel args env s = some (.error e, s2) →
        catch_error_handler (fuel + 1) args env s = some (.ok e.into_lisp_obj, s2)) := by
  constructor
  · intro v s2 h
    simp [catch_error_handler, h]
  · intro e s2 h
    simp [catch_error_handler, h]

theorem c7_witness :
    (begin_handler 5 [] 0 [envGlobal] = some (.ok .LNil, [envGlobal]) ∧
      catch_error_handler 6 [] 0 [envGlobal] = some (.ok .LNil, [envGlobal])) ∧
    (∃ e, begin_handler 5 [.LSymbol "zz"] 0 [envGlobal] = some (.error e, [envGlobal]) ∧
      catch_error_handler 6 [.LSymbol "zz"] 0 [envGlobal] =
        some (.ok e.into_lisp_obj, [envGlobal])) :=
  ⟨⟨rfl, (c7_catch_error_spec 5 [] 0 [envGlobal]).1 .LNil [envGlobal] rfl⟩,
    ⟨boundError "symbol 'zz is not bound", rfl,
      (c7_catch_error_spec 5 [.LSymbol "zz"] 0 [envGlobal]).2
        (boundError "symbol 'zz is not bound") [envGlobal] rfl⟩⟩

/-! ## C6: symbol lookup -/

/-- `Environment::lookup` walks the chain outward and returns the binding
of the innermost frame that defines the name, or `None` when no frame in
the chain does. -/
theorem envLookup_eq_firstBinding (s : Store) :
    ∀ (fuel id : Nat) (name : String) (ids : List Nat),
      chainIds s fuel id = some ids →
      envLookup s fuel id name = some (firstBinding s ids name) := by
  intro fuel
  induction fuel with
  | zero =>
    intro id name ids h
    simp [chainIds] at h
  | succ fuel ih =>
    intro id name ids h
    rw [chainIds] at h
    cases hg : s.getEnv id with
    | none => rw [hg] at h; exact absurd h (by simp)
    | some e =>
      rw [hg] at h
      dsimp only at h
      cases hp : e.parent with
      | some par =>
        rw [hp] at h
        dsimp only at h
        cases hc : chainIds s fuel par with
        | none => rw [hc] at h; exact absurd h (by simp)
        | some l =>
          rw [hc] at h
          dsimp only [Option.map] at h
          cases h
          rw [envLookup, hg]
          dsimp only
          rw [firstBinding, hg]
          dsimp only [Option.bind]
          cases hb : mapGet e.bindings name with
          | some v => rfl
          | none =>
            rw [hp]
            exact ih par name l hc
      | none =>
        rw [hp] at h
        dsimp only at h
        cases h
        rw [envLookup, hg]
        dsimp only
        rw [firstBinding, hg]
        dsimp only [Option.bind]
        cases hb : mapGet e.bindings name with
        | some v => rfl
        | none =>
          rw [hp]
          rfl

/-- C6: `eval` of a symbol returns the value bound in the innermost frame
of the chain that defines the name (walking outward to the root), and a
bound-error whose message names the symbol exactly when no frame in the
chain defines it. -/
theorem c6_eval_symbol (fuel : Nat) (name : String) (env : Nat) (s : Store)
    (ids : List Nat) (hchain : chainIds s (s.length + 1) env = some ids) :
    eval (fuel + 1) (.LSymbol name) env s =
      match firstBinding s ids name with
      | some v => some (.ok v, s)
      | none => some (.error (boundError ("symbol '" ++ name ++ " is not bound")), s) := by
  have hl := envLookup_eq_firstBinding s (s.length + 1) env name ids hchain
  rw [eval]
  simp only [LispObj.is_self_evaluating, LispObj.symbol_ref, Bool.false_eq_true, if_false,
    M.bind_apply, M.lookupM, hl]
  cases firstBinding s ids name with
  | some v => simp
  | none => simp

theorem mapPut_fst {κ α : Type} [DecidableEq κ] (m : List (κ × α)) (k : κ) (v : α) :
    (mapPut m k v).1 = mapGet m k := by
  induction m with
  | nil => rfl
  | cons p rest ih =>
    obtain ⟨k2, v2⟩ := p
    by_cases hk : k2 = k
    · simp [mapPut, mapGet, hk]
    · simp [mapPut, mapGet, hk, ih]

theorem mapGet_mapPut_self {κ α : Type} [DecidableEq κ] (m : List (κ × α)) (k : κ) (v : α) :
    mapGet (mapPut m k v).2 k = some v := by
  induction m with
  | nil => simp [mapPut, mapGet]
  | cons p rest ih =>
    obtain ⟨k2, v2⟩ := p
    by_cases hk : k2 = k
    · simp [mapPut, mapGet, hk]
    · simp [mapPut, mapGet, hk, ih]

theorem mapGet_mapPut_ne {κ α : Type} [DecidableEq κ] (m : List (κ × α)) (k k2 : κ) (v : α)
    (h : k2 ≠ k) : mapGet (mapPut m k v).2 k2 = mapGet m k2 := by
  induction m with
  | nil => simp [mapPut, mapGet, Ne.symm h]
  | cons p rest ih =>
    obtain ⟨k3, v3⟩ := p
    by_cases hk : k3 = k
    · subst hk
      simp [mapPut, mapGet, Ne.symm h]
    · by_cases hk2 : k3 = k2
      · simp [mapPut, mapGet, hk, hk2, h]
      · simp [mapPut, mapGet, hk, hk2, ih]

theorem mapGet_mapDel_self {κ α : Type} [DecidableEq κ] (m : List (κ × α)) (k : κ)
    (h : (m.map Prod.fst).Nodup) : mapGet (mapDel m k).2 k = none := by
  induction m with
  | nil => simp [mapDel, mapGet]
  | cons p rest ih =>
    obtain ⟨k2, v2⟩ := p
    simp only [List.map_cons, List.nodup_cons] at h
    by_cases hk : k2 = k
    · subst hk
      simp only [mapDel, if_pos rfl]
      cases hg : mapGet rest k2 with
      | none => exact hg
      | some v3 =>
        exfalso
        apply h.1
        clear ih h
        induction rest with
        | nil => simp [mapGet] at hg
        | cons q qrest ihq =>
          obtain ⟨k4, v4⟩ := q
          by_cases hk4 : k4 = k2
          · simp [hk4]
          · simp only [mapGet, if_neg hk4] at hg
            simp [ihq hg]
    · simp [mapDel, mapGet, hk, ih h.2]

theorem mapGet_mapDel_ne {κ α : Type} [DecidableEq κ] (m : List (κ × α)) (k k2 : κ)
    (h : k2 ≠ k) : mapGet (mapDel m k).2 k2 = mapGet m k2 := by
  induction m with
  | nil => simp [mapDel, mapGet]
  | cons p rest ih =>
    obtain ⟨k3, v3⟩ := p
    by_cases hk : k3 = k
    · subst hk
      simp [mapDel, mapGet, Ne.symm h]
    · by_cases hk2 : k3 = k2
      · simp [mapDel, mapGet, hk, hk2, h]
      · simp [mapDel, mapGet, hk, hk2, ih]

/-- A successful `get_top_level` names a frame with no parent — the
root. -/
theorem getTopLevel_spec (s : Store) :
    ∀ fuel id t, getTopLevel s fuel id = some t →
      ∃ e, s.getEnv t = some e ∧ e.parent = none := by
  intro fuel
  induction fuel with
  | zero => intro id t h; simp [getTopLevel] at h
  | succ fuel ih =>
    intro id t h
    rw [getTopLevel] at h
    cases hg : s.getEnv id with
    | none => rw [hg] at h; exact absurd h (by simp)
    | some e =>
      rw [hg] at h
      dsimp only at h
      cases hp : e.parent with
      | some par =>
        rw [hp] at h
        exact ih par t h
      | none =>
        rw [hp] at h
        dsimp only at h
        cases h
        exact ⟨e, hg, hp⟩

theorem getEnv_setEnv_self (s : Store) (i : Nat) (e e0 : Environment)
    (h : s.getEnv i = some e0) : (s.setEnv i e).getEnv i = some e := by
  have hi : i < s.length := by
    by_contra hge
    rw [Store.getEnv, List.getElem?_eq_none (by omega)] at h
    exact absurd h (by simp)
  simpa [Store.getEnv, Store.setEnv] using List.getElem?_set_self hi

theorem getEnv_setEnv_ne (s : Store) (i j : Nat) (e : Environment) (h : j ≠ i) :
    (s.setEnv i e).getEnv j = s.getEnv j := by
  simp [Store.getEnv, Store.setEnv, List.getElem?_set_ne (fun he => h he.symm)]

theorem mapGet_append {κ α : Type} [DecidableEq κ] (m m2 : List (κ × α)) (k : κ) :
    mapGet (m ++ m2) k =
      match mapGet m k with
      | some v => some v
      | none => mapGet m2 k := by
  induction m with
  | nil => simp [mapGet]
  | cons p rest ih =>
    obtain ⟨k2, v2⟩ := p
    by_cases hk : k2 = k
    · simp [mapGet, hk]
    · simp [mapGet, hk, ih]

theorem mapPut_append {κ α : Type} [DecidableEq κ] (m : List (κ × α)) (k : κ) (v : α)
    (h : mapGet m k = none) : (mapPut m k v).2 = m ++ [(k, v)] := by
  induction m with
  | nil => rfl
  | cons p rest ih =>
    obtain ⟨k2, v2⟩ := p
    by_cases hk : k2 = k
    · rw [mapGet, if_pos hk] at h
      exact absurd h (by simp)
    · rw [mapGet, if_neg hk] at h
      simp [mapPut, hk, ih h]

/-! ## C3: multi-arity dispatch -/

/-- One clause-binding attempt: under duplicate-free parameter names and
fresh frame keys, `parse_args_into_go` succeeds exactly on a matching
argument list, appending the positional and rest bindings in insertion
order, and otherwise returns an arity-error. -/
theorem parse_args_into_go_spec (arity : ArityObj) :
    ∀ (names : List String) (ind : Nat) (args : LispObj) (env : Environment),
      names.Nodup →
      (∀ nm ∈ names, mapGet env.bindings nm = none) →
      (∀ r, arity.rest = some r → mapGet env.bindings r = none ∧ r ∉ names) →
      (matchesGo names args arity.rest.isSome = true →
        parse_args_into_go arity names ind args env =
          some (.ok { env with
            bindings := env.bindings ++ clauseBindingsGo names args arity.rest })) ∧
      (matchesGo names args arity.rest.isSome = false →
        ∃ e, parse_args_into_go arity names ind args env = some (.error e) ∧
          e.errname = "arity-error") := by
  intro names
  induction names with
  | nil =>
    intro ind args env h1 h2 h3
    cases hr : arity.rest with
    | some r =>
      obtain ⟨hget, _⟩ := h3 r hr
      have hgo : parse_args_into_go arity [] ind args env =
          some (.ok { env with bindings := env.bindings ++ [(r, args)] }) := by
        rw [parse_args_into_go]
        rw [hr]
        simp only [Environment.let_new, mapPut_fst, hget, Option.isSome_none,
          Bool.false_eq_true, if_false, mapPut_append env.bindings r args hget]
      constructor
      · intro _
        rw [hgo]
        simp [clauseBindingsGo, hr]
      · intro hm
        rw [matchesGo] at hm
        simp at hm
    | none =>
      constructor
      · intro hm
        rw [matchesGo] at hm
        simp only [Option.isSome_none, Bool.false_or] at hm
        rw [parse_args_into_go]
        rw [hr]
        simp [hm, clauseBindingsGo, hr]
      · intro hm
        rw [matchesGo] at hm
        simp only [Option.isSome_none, Bool.false_or] at hm
        refine ⟨arityError ("Extra args: " ++ args.display), ?_, rfl⟩
        rw [parse_args_into_go]
        rw [hr]
        simp [hm]
  | cons name more ih =>
    intro ind args env h1 h2 h3
    rw [List.nodup_cons] at h1
    cases hc : args.cons_split with
    | some p =>
      obtain ⟨hd, tl⟩ := p
      have hget : mapGet env.bindings name = none := h2 name (by simp)
      have h2a : ∀ nm ∈ more, mapGet (env.bindings ++ [(name, hd)]) nm = none := by
        intro nm hmem
        rw [mapGet_append, h2 nm (by simp [hmem])]
        have hne : nm ≠ name := fun he => h1.1 (he ▸ hmem)
        simp [mapGet, hne.symm]
      have h3a : ∀ r, arity.rest = some r →
          mapGet (env.bindings ++ [(name, hd)]) r = none ∧ r ∉ more := by
        intro r hr
        obtain ⟨hg, hnm⟩ := h3 r hr
        have hne : r ≠ name := fun he => hnm (by simp [he])
        constructor
        · rw [mapGet_append, hg]
          simp [mapGet, hne.symm]
        · intro hmem
          exact hnm (by simp [hmem])
      obtain ⟨ihT, ihF⟩ := ih (ind + 1) tl { env with bindings := env.bindings ++ [(name, hd)] }
        h1.2 h2a h3a
      have hstep : parse_args_into_go arity (name :: more) ind args env =
          parse_args_into_go arity more (ind + 1) tl
            { env with bindings := env.bindings ++ [(name, hd)] } := by
        rw [parse_args_into_go]
        rw [hc]
        simp only [Environment.let_new, mapPut_fst, hget, Option.isSome_none,
          Bool.false_eq_true, if_false, mapPut_append env.bindings name hd hget]
      have hmatch : matchesGo (name :: more) args arity.rest.isSome =
          matchesGo more tl arity.rest.isSome := by
        rw [matchesGo]
        rw [hc]
      constructor
      · intro hm
        rw [hmatch] at hm
        rw [hstep, ihT hm]
        have hbind : clauseBindingsGo (name :: more) args arity.rest =
            (name, hd) :: clauseBindingsGo more tl arity.rest := by
          rw [clauseBindingsGo]
          rw [hc]
        rw [hbind]
        simp
      · intro hm
        rw [hmatch] at hm
        obtain ⟨e, he, hname⟩ := ihF hm
        refine ⟨e, ?_, hname⟩
        rw [hstep]
        exact he
    | none =>
      constructor
      · intro hm
        rw [matchesGo] at hm
        rw [hc] at hm
        exact absurd hm (by simp)
      · intro _
        refine ⟨arityError ("Too few args: expecting " ++
          toString arity.argnames.length ++ ", got " ++ toString ind), ?_, rfl⟩
        rw [parse_args_into_go]
        rw [hc]

/-- `parse_args_into` against the claim's match condition: it clears the
frame, then succeeds with exactly the clause bindings when the arity
matches, and returns an arity-error otherwise. -/
theorem parse_args_into_spec (arity : ArityObj) (args : LispObj) (env : Environment)
    (hnd : arity.nodupNames) :
    (arity.matches args = true →
      parse_args_into arity args env =
        some (.ok { env.clear_bindings with bindings := clauseBindings arity args })) ∧
    (arity.matches args = false →
      ∃ e, parse_args_into arity args env = some (.error e) ∧
        e.errname = "arity-error") := by
  rw [ArityObj.nodupNames] at hnd
  have h1 : arity.argnames.Nodup := hnd.of_append_left
  have h3 : ∀ r, arity.rest = some r →
      mapGet (env.clear_bindings).bindings r = none ∧ r ∉ arity.argnames := by
    intro r hr
    refine ⟨rfl, ?_⟩
    intro hmem
    have hdisj := List.disjoint_of_nodup_append hnd
    exact hdisj hmem (by simp [hr])
  have h2 : ∀ nm ∈ arity.argnames, mapGet (env.clear_bindings).bindings nm = none := by
    intro nm _
    rfl
  obtain ⟨hT, hF⟩ := parse_args_into_go_spec arity arity.argnames 0 args env.clear_bindings
    h1 h2 h3
  constructor
  · intro hm
    rw [parse_args_into, hT hm]
    rfl
  · intro hm
    rw [parse_args_into]
    exact hF hm

/-- The clause loop: the first matching clause's bindings and body, else
the last clause's own arity error. -/
theorem start_procedure_from_go_spec (args : LispObj) (env : Environment) :
    ∀ (body : List (ArityObj × List LispObj)), body ≠ [] →
      (∀ c ∈ body, c.1.nodupNames) →
      (∀ c, firstMatch body args = some c →
        start_procedure_from_go args env body =
          some (.ok ({ env.clear_bindings with bindings := clauseBindings c.1 args }, c.2))) ∧
      (firstMatch body args = none →
        ∃ e lastClause, body.getLast? = some lastClause ∧
          parse_args_into lastClause.1 args env = some (.error e) ∧
          e.errname = "arity-error" ∧
          start_procedure_from_go args env body = some (.error e)) := by
  intro body
  induction body with
  | nil => intro h; exact absurd rfl h
  | cons c more ih =>
    intro _ hnd
    obtain ⟨arity, clauseBody⟩ := c
    obtain ⟨pT, pF⟩ := parse_args_into_spec arity args env (hnd (arity, clauseBody) (by simp))
    cases more with
    | nil =>
      constructor
      · intro c2 hfm
        rw [firstMatch] at hfm
        by_cases hm : arity.matches args = true
        · rw [if_pos hm] at hfm
          cases hfm
          rw [start_procedure_from_go, pT hm]
        · rw [if_neg hm] at hfm
          rw [firstMatch] at hfm
          exact absurd hfm (by simp)
      · intro hfm
        rw [firstMatch] at hfm
        by_cases hm : arity.matches args = true
        · rw [if_pos hm] at hfm
          exact absurd hfm (by simp)
        · obtain ⟨e, he, hname⟩ := pF (by simpa using hm)
          exact ⟨e, (arity, clauseBody), rfl, he, hname, by rw [start_procedure_from_go, he]⟩
    | cons c2 more2 =>
      obtain ⟨ihT, ihF⟩ := ih (by simp) (fun d hd => hnd d (List.mem_cons_of_mem _ hd))
      constructor
      · intro c3 hfm
        rw [firstMatch] at hfm
        by_cases hm : arity.matches args = true
        · rw [if_pos hm] at hfm
          cases hfm
          rw [start_procedure_from_go, pT hm]
          simp
        · rw [if_neg hm] at hfm
          obtain ⟨e, he, _⟩ := pF (by simpa using hm)
          rw [start_procedure_from_go, he]
          · exact ihT c3 hfm
          · simp
      · intro hfm
        rw [firstMatch] at hfm
        by_cases hm : arity.matches args = true
        · rw [if_pos hm] at hfm
          exact absurd hfm (by simp)
        · rw [if_neg hm] at hfm
          obtain ⟨e, he, _⟩ := pF (by simpa using hm)
          obtain ⟨e2, lastC, hlast, hp, hname, hgo⟩ := ihF hfm
          refine ⟨e2, lastC, ?_, hp, hname, ?_⟩
          · rw [List.getLast?_cons_cons]
            exact hlast
          · rw [start_procedure_from_go, he]
            · exact hgo
            · simp

theorem mapDel_fst {κ α : Type} [DecidableEq κ] (m : List (κ × α)) (k : κ) :
    (mapDel m k).1 = mapGet m k := by
  induction m with
  | nil => rfl
  | cons p rest ih =>
    obtain ⟨k2, v2⟩ := p
    by_cases hk : k2 = k
    · simp [mapDel, mapGet, hk]
    · simp [mapDel, mapGet, hk, ih]

/-- `next_procedure_id` bumps exactly the root frame's counter (the same
frame `get_top_level` names) and returns its previous value. -/
theorem nextProcedureId_spec (s : Store) :
    ∀ fuel id t, getTopLevel s fuel id = some t →
      ∀ e, s.getEnv t = some e →
        nextProcedureId s fuel id = some (e.max_procedure_id, s.setEnv t (bumpCounter e)) := by
  intro fuel
  induction fuel with
  | zero => intro id t h; simp [getTopLevel] at h
  | succ fuel ih =>
    intro id t h e he
    rw [getTopLevel] at h
    cases hg : s.getEnv id with
    | none => rw [hg] at h; exact absurd h (by simp)
    | some e2 =>
      rw [hg] at h
      dsimp only at h
      cases hp : e2.parent with
      | some par =>
        rw [hp] at h
        rw [nextProcedureId, hg]
        dsimp only
        rw [hp]
        exact ih par t h e he
      | none =>
        rw [hp] at h
        dsimp only at h
        cases h
        rw [hg] at he
        cases he
        obtain ⟨epar, ebind, emax, emac, espec⟩ := e
        simp only at hp
        subst hp
        rw [nextProcedureId, hg]
        rfl

/-- `swap_values` replaces the binding in the first frame of the chain
that owns the name (returning the old value) and leaves the store
untouched when no frame in the chain binds it. -/
theorem swapValues_spec (s : Store) (hN : ∀ e ∈ s, (e.bindings.map Prod.fst).Nodup) :
    ∀ (fuel id : Nat) (name : String) (v : LispObj) (ids : List Nat),
      chainIds s fuel id = some ids →
      (match ownerFrame s ids name with
       | some fid =>
         ∃ e old, s.getEnv fid = some e ∧ mapGet e.bindings name = some old ∧
           swapValues s fuel id name v =
             some (some old,
               s.setEnv fid { e with bindings := (mapPut (mapDel e.bindings name).2 name v).2 })
       | none => swapValues s fuel id name v = some (none, s)) := by
  intro fuel
  induction fuel with
  | zero => intro id name v ids h; simp [chainIds] at h
  | succ fuel ih =>
    intro id name v ids h
    rw [chainIds] at h
    cases hg : s.getEnv id with
    | none => rw [hg] at h; exact absurd h (by simp)
    | some e =>
      rw [hg] at h
      dsimp only at h
      have hnd : (e.bindings.map Prod.fst).Nodup :=
        hN e (List.getElem?_mem hg)
      cases hb : mapGet e.bindings name with
      | some oldVal =>
        have howner : ∀ rest, ownerFrame s (id :: rest) name = some id := by
          intro rest
          rw [ownerFrame, hg]
          dsimp only [Option.bind]
          rw [hb]
        have hswap : swapValues s (fuel + 1) id name v =
            some (some oldVal,
              s.setEnv id { e with bindings := (mapPut (mapDel e.bindings name).2 name v).2 }) := by
          rw [swapValues, hg]
          dsimp only
          rw [mapDel_fst, hb]
          dsimp only
          rw [mapPut_fst, mapGet_mapDel_self e.bindings name hnd]
          rfl
        cases hp : e.parent with
        | some par =>
          rw [hp] at h
          dsimp only at h
          cases hc : chainIds s fuel par with
          | none => rw [hc] at h; exact absurd h (by simp)
          | some l =>
            rw [hc] at h
            dsimp only [Option.map] at h
            cases h
            rw [howner l]
            exact ⟨e, oldVal, hg, hb, hswap⟩
        | none =>
          rw [hp] at h
          dsimp only at h
          cases h
          rw [howner []]
          exact ⟨e, oldVal, hg, hb, hswap⟩
      | none =>
        cases hp : e.parent with
        | some par =>
          rw [hp] at h
          dsimp only at h
          cases hc : chainIds s fuel par with
          | none => rw [hc] at h; exact absurd h (by simp)
          | some l =>
            rw [hc] at h
            dsimp only [Option.map] at h
            cases h
            have hrec := ih par name v l hc
            have howner : ownerFrame s (id :: l) name = ownerFrame s l name := by
              rw [ownerFrame, hg]
              dsimp only [Option.bind]
              rw [hb]
            rw [howner]
            have hstep : swapValues s (fuel + 1) id name v = swapValues s fuel par name v := by
              rw [swapValues, hg]
              dsimp only
              rw [mapDel_fst, hb]
              dsimp only
              rw [hp]
            cases ho : ownerFrame s l name with
            | some fid =>
              rw [ho] at hrec
              obtain ⟨e2, old2, hg2, hb2, hsw⟩ := hrec
              exact ⟨e2, old2, hg2, hb2, by rw [hstep]; exact hsw⟩
            | none =>
              rw [ho] at hrec
              rw [hstep]
              exact hrec
        | none =>
          rw [hp] at h
          dsimp only at h
          cases h
          have howner : ownerFrame s [id] name = none := by
            rw [ownerFrame, hg]
            dsimp only [Option.bind]
            rw [hb]
            rfl
          rw [howner]
          rw [swapValues, hg]
          dsimp only
          rw [mapDel_fst, hb]
          dsimp only
          rw [hp]

/-- C3: for a procedure with a non-empty, duplicate-free clause list,
the clause whose body is selected is the first clause in declaration
order whose arity descriptor matches the arguments (all positional
parameters bound to successive cars, a non-`Nil` remainder permitted only
with a rest parameter); when no clause matches, the last clause is still
attempted, so the surfaced error is that last clause's own arity error —
never a generic no-clause-matched error. -/
theorem c3_multi_arity_dispatch (procd : Procedure) (args : LispObj) (env : Environment)
    (hne : procd.body ≠ [])
    (hnd : ∀ c ∈ procd.body, c.1.nodupNames) :
    (∀ c, firstMatch procd.body args = some c →
      start_procedure_from procd args env =
        some (.ok ({ env.clear_bindings with bindings := clauseBindings c.1 args }, c.2))) ∧
    (firstMatch procd.body args = none →
      ∃ e lastClause, procd.body.getLast? = some lastClause ∧
        parse_args_into lastClause.1 args env = some (.error e) ∧
        e.errname = "arity-error" ∧
        start_procedure_from procd args env = some (.error e)) := by
  obtain ⟨hT, hF⟩ := start_procedure_from_go_spec args env procd.body hne hnd
  have hun : start_procedure_from procd args env = start_procedure_from_go args env procd.body := by
    rw [start_procedure_from, if_neg (by simpa using hne)]
  constructor
  · intro c hfm
    rw [hun]
    exact hT c hfm
  · intro hfm
    obtain ⟨e, lastC, hlast, hp, hname, hgo⟩ := hF hfm
    exact ⟨e, lastC, hlast, hp, hname, by rw [hun]; exact hgo⟩

/-- A two-clause procedure used to instantiate the dispatch theorem:
`(case-lambda ((a) body1) ((a b . r) body2))`. -/
theorem c3_witness :
    (Procedure.mk 0 none 0 none
        [(⟨["a"], none⟩, [.LInteger 10]), (⟨["a", "b"], some "r"⟩, [.LInteger 20])]).body ≠ [] ∧
    (∀ c ∈ (Procedure.mk 0 none 0 none
        [(⟨["a"], none⟩, [.LInteger 10]), (⟨["a", "b"], some "r"⟩, [.LInteger 20])]).body,
      c.1.nodupNames) ∧
    firstMatch [(⟨["a"], none⟩, [.LInteger 10]), (⟨["a", "b"], some "r"⟩, [.LInteger 20])]
        (.LCons (.LInteger 1) (.LCons (.LInteger 2) (.LCons (.LInteger 3) .LNil))) =
      some (⟨["a", "b"], some "r"⟩, [.LInteger 20]) ∧
    start_procedure_from
        (Procedure.mk 0 none 0 none
          [(⟨["a"], none⟩, [.LInteger 10]), (⟨["a", "b"], some "r"⟩, [.LInteger 20])])
        (.LCons (.LInteger 1) (.LCons (.LInteger 2) (.LCons (.LInteger 3) .LNil)))
        Environment.new =
      some (.ok ({ Environment.new.clear_bindings with
        bindings := clauseBindings ⟨["a", "b"], some "r"⟩
          (.LCons (.LInteger 1) (.LCons (.LInteger 2) (.LCons (.LInteger 3) .LNil))) },
        [.LInteger 20])) :=
  ⟨by simp [Procedure.body],
    by
      intro c hc
      simp only [Procedure.body, List.mem_cons, List.not_mem_nil, or_false] at hc
      rcases hc with rfl | rfl <;> decide,
    rfl,
    (c3_multi_arity_dispatch
      (Procedure.mk 0 none 0 none
        [(⟨["a"], none⟩, [.LInteger 10]), (⟨["a", "b"], some "r"⟩, [.LInteger 20])])
      (.LCons (.LInteger 1) (.LCons (.LInteger 2) (.LCons (.LInteger 3) .LNil)))
      Environment.new (by simp [Procedure.body])
      (by
        intro c hc
        simp only [Procedure.body, List.mem_cons, List.not_mem_nil, or_false] at hc
        rcases hc with rfl | rfl <;> decide)).1
      (⟨["a", "b"], some "r"⟩, [.LInteger 20]) rfl⟩

/-- The run of `define_handler` on the symbol form `(define n expr)`:
evaluate the expression, then insert (name-adjusted for procedures) into
the root frame, and report a redefine-error only when the name was
already bound there and `*allow-redefine*` is falsey — the insertion
happens either way. -/
theorem define_handler_sym
    (fuel : Nat) (n : String) (valueExpr : LispObj) (env : Nat) (s s1 : Store)
    (v : LispObj) (top : Nat) (eTop : Environment) (aVal : LispObj)
    (heval : eval fuel valueExpr env s = some (.ok v, s1))
    (htop : getTopLevel s1 (s1.length + 1) env = some top)
    (hframe : s1.getEnv top = some eTop)
    (hallow : envLookup s1 (s1.length + 1) top "*allow-redefine*" = some (some aVal)) :
    define_handler (fuel + 1) [.LSymbol n, valueExpr] env s =
      (match mapGet eTop.bindings n with
       | some _ =>
         if aVal.falsey then
           some (.error (redefineError ("symbol " ++ n ++ " is already bound")),
             s1.setEnv top { eTop with bindings := (mapPut eTop.bindings n (defineAdjust n v)).2 })
         else
           some (.ok (.LSymbol n),
             s1.setEnv top { eTop with bindings := (mapPut eTop.bindings n (defineAdjust n v)).2 })
       | none =>
         some (.ok (.LSymbol n),
           s1.setEnv top { eTop with bindings := (mapPut eTop.bindings n (defineAdjust n v)).2 })) := by
  rw [define_handler]
  rw [if_neg (by simp)]
  cases v <;>
    simp [M.bind_apply, heval, M.getTopLevelM, htop, M.lookupExpectM, hallow,
      M.letNewM, hframe, Environment.let_new, mapPut_fst, defineAdjust] <;>
    cases hb : mapGet eTop.bindings n <;> simp [hb] <;>
    by_cases hf : aVal.falsey = true <;> simp [hf, M.throwE]

/-- Companion to `define_handler_sym` for the function form
`(define (f . params) body...)`: `parse_lambda_args_body` builds the
procedure (bumping the top frame's id counter on the way to store
`s1`), and the named procedure is then bound by `let_new` on the
top-level frame exactly as in the symbol form. -/
theorem define_handler_fun
    (fuel : Nat) (fname : String) (params body0 : LispObj) (bodyRest : List LispObj)
    (env : Nat) (s s1 : Store) (func : Procedure) (top : Nat) (eTop : Environment)
    (aVal : LispObj)
    (hfun : parse_lambda_args_body params (body0 :: bodyRest) env s = some (.ok func, s1))
    (htop : getTopLevel s1 (s1.length + 1) env = some top)
    (hframe : s1.getEnv top = some eTop)
    (hallow : envLookup s1 (s1.length + 1) top "*allow-redefine*" = some (some aVal)) :
    define_handler (fuel + 1) ((.LCons (.LSymbol fname) params) :: body0 :: bodyRest) env s =
      (match mapGet eTop.bindings fname with
       | some _ =>
         if aVal.falsey then
           some (.error (redefineError ("symbol " ++ fname ++ " is already bound")),
             s1.setEnv top { eTop with bindings :=
               (mapPut eTop.bindings fname (.LProcedure (func.with_name fname))).2 })
         else
           some (.ok (.LSymbol fname),
             s1.setEnv top { eTop with bindings :=
               (mapPut eTop.bindings fname (.LProcedure (func.with_name fname))).2 })
       | none =>
         some (.ok (.LSymbol fname),
           s1.setEnv top { eTop with bindings :=
             (mapPut eTop.bindings fname (.LProcedure (func.with_name fname))).2 })) := by
  rw [define_handler]
  rw [if_neg (by simp)]
  cases hb : mapGet eTop.bindings fname <;>
    simp [M.bind_apply, hfun, M.getTopLevelM, htop, M.lookupExpectM, hallow,
      M.letNewM, hframe, Environment.let_new, mapPut_fst, hb, LispObj.cons_split] <;>
    by_cases hf : aVal.falsey = true <;> simp [hf, M.throwE]
  all_goals intro nm valueExpr h h2
  all_goals simp at h

/-! ## C8 and C10: redefinition at top level -/

/-- C8: a second `(define name value)` for a name already bound in the
top-level frame returns a redefine-error when `*allow-redefine*` is
falsey and succeeds when it is truthy; in both cases the top-level
binding afterwards holds the newly evaluated (second) value. -/
theorem c8_define_redefinition
    (fuel : Nat) (n : String) (valueExpr : LispObj) (env : Nat) (s s1 : Store)
    (v : LispObj) (top : Nat) (eTop : Environment) (aVal oldVal : LispObj)
    (heval : eval fuel valueExpr env s = some (.ok v, s1))
    (htop : getTopLevel s1 (s1.length + 1) env = some top)
    (hframe : s1.getEnv top = some eTop)
    (hallow : envLookup s1 (s1.length + 1) top "*allow-redefine*" = some (some aVal))
    (hbound : mapGet eTop.bindings n = some oldVal) :
    ∃ eTop2,
      (s1.setEnv top eTop2).getEnv top = some eTop2 ∧
      mapGet eTop2.bindings n = some (defineAdjust n v) ∧
      define_handler (fuel + 1) [.LSymbol n, valueExpr] env s =
        (if aVal.falsey then
          some (.error (redefineError ("symbol " ++ n ++ " is already bound")),
            s1.setEnv top eTop2)
        else
          some (.ok (.LSymbol n), s1.setEnv top eTop2)) := by
  refine ⟨{ eTop with bindings := (mapPut eTop.bindings n (defineAdjust n v)).2 },
    getEnv_setEnv_self s1 top _ eTop hframe, mapGet_mapPut_self _ _ _, ?_⟩
  rw [define_handler_sym fuel n valueExpr env s s1 v top eTop aVal heval htop hframe hallow,
    hbound]

theorem c8_witness :
    (eval 1 (.LInteger 2) 1 storeTwo = some (.ok (.LInteger 2), storeTwo)) ∧
    (getTopLevel storeTwo (storeTwo.length + 1) 1 = some 0) ∧
    (storeTwo.getEnv 0 = some envGlobal) ∧
    (envLookup storeTwo (storeTwo.length + 1) 0 "*allow-redefine*" =
      some (some (.LSymbol "false"))) ∧
    (mapGet envGlobal.bindings "x" = some (.LInteger 1)) ∧
    ∃ eTop2,
      (storeTwo.setEnv 0 eTop2).getEnv 0 = some eTop2 ∧
      mapGet eTop2.bindings "x" = some (defineAdjust "x" (.LInteger 2)) ∧
      define_handler 2 [.LSymbol "x", .LInteger 2] 1 storeTwo =
        (if (LispObj.LSymbol "false").falsey then
          some (.error (redefineError ("symbol " ++ "x" ++ " is already bound")),
            storeTwo.setEnv 0 eTop2)
        else
          some (.ok (.LSymbol "x"), storeTwo.setEnv 0 eTop2)) :=
  ⟨rfl, rfl, rfl, rfl, rfl,
    c8_define_redefinition 1 "x" (.LInteger 2) 1 storeTwo storeTwo (.LInteger 2) 0
      envGlobal (.LSymbol "false") (.LInteger 1) rfl rfl rfl rfl rfl⟩

/-- C10: when `define` reports a redefine-error (name already bound at
top level, `*allow-redefine*` falsey), the top-level binding has
nevertheless already been replaced with the newly evaluated value before
the error is returned: the returned store carries the new binding. -/
theorem c10_redefine_error_still_replaces
    (fuel : Nat) (n : String) (valueExpr : LispObj) (env : Nat) (s s1 : Store)
    (v : LispObj) (top : Nat) (eTop : Environment) (aVal oldVal : LispObj)
    (heval : eval fuel valueExpr env s = some (.ok v, s1))
    (htop : getTopLevel s1 (s1.length + 1) env = some top)
    (hframe : s1.getEnv top = some eTop)
    (hallow : envLookup s1 (s1.length + 1) top "*allow-redefine*" = some (some aVal))
    (hbound : mapGet eTop.bindings n = some oldVal)
    (hfalsey : aVal.falsey = true) :
    ∃ eTop2,
      define_handler (fuel + 1) [.LSymbol n, valueExpr] env s =
        some (.error (redefineError ("symbol " ++ n ++ " is already bound")),
          s1.setEnv top eTop2) ∧
      (s1.setEnv top eTop2).getEnv top = some eTop2 ∧
      mapGet eTop2.bindings n = some (defineAdjust n v) := by
  refine ⟨{ eTop with bindings := (mapPut eTop.bindings n (defineAdjust n v)).2 }, ?_,
    getEnv_setEnv_self s1 top _ eTop hframe, mapGet_mapPut_self _ _ _⟩
  rw [define_handler_sym fuel n valueExpr env s s1 v top eTop aVal heval htop hframe hallow,
    hbound]
  simp [hfalsey]

theorem c10_witness :
    (eval 1 (.LInteger 2) 1 storeTwo = some (.ok (.LInteger 2), storeTwo)) ∧
    (mapGet envGlobal.bindings "x" = some (.LInteger 1)) ∧
    ((LispObj.LSymbol "false").falsey = true) ∧
    ∃ eTop2,
      define_handler 2 [.LSymbol "x", .LInteger 2] 1 storeTwo =
        some (.error (redefineError ("symbol " ++ "x" ++ " is already bound")),
          storeTwo.setEnv 0 eTop2) ∧
      (storeTwo.setEnv 0 eTop2).getEnv 0 = some eTop2 ∧
      mapGet eTop2.bindings "x" = some (defineAdjust "x" (.LInteger 2)) :=
  ⟨rfl, rfl, rfl,
    c10_redefine_error_still_replaces 1 "x" (.LInteger 2) 1 storeTwo storeTwo
      (.LInteger 2) 0 envGlobal (.LSymbol "false") (.LInteger 1) rfl rfl rfl rfl rfl rfl⟩

theorem c6_witness :
    (chainIds storeTwo (storeTwo.length + 1) 1 = some [1, 0]) ∧
    (eval 3 (.LSymbol "x") 1 storeTwo =
      match firstBinding storeTwo [1, 0] "x" with
      | some v => some (.ok v, storeTwo)
      | none => some (.error (boundError ("symbol 'x is not bound")), storeTwo)) ∧
    firstBinding storeTwo [1, 0] "x" = some (.LInteger 1) ∧
    (eval 3 (.LSymbol "zz") 1 storeTwo =
      match firstBinding storeTwo [1, 0] "zz" with
      | some v => some (.ok v, storeTwo)
      | none => some (.error (boundError ("symbol 'zz is not bound")), storeTwo)) ∧
    firstBinding storeTwo [1, 0] "zz" = none :=
  ⟨rfl, c6_eval_symbol 2 "x" 1 storeTwo [1, 0] rfl, rfl,
    c6_eval_symbol 2 "zz" 1 storeTwo [1, 0] rfl, rfl⟩

/-! ## C2: which frame do the mutating forms target -/

/-- A successful `parse_lambda_args_body` call bumps the top frame's
procedure counter before `define_macro_handler` reads
`*allow-redefine*`; this lemma tracks the whole handler run for a
symbol-named macro. -/
theorem define_macro_targets_top
    (mname : String) (params b0 : LispObj) (brest : List LispObj) (env : Nat)
    (s : Store) (top : Nat) (eTop : Environment) (arity : ArityObj) (aVal : LispObj)
    (hArity : parse_arglist params = .ok arity)
    (htop : getTopLevel s (s.length + 1) env = some top)
    (hframe : s.getEnv top = some eTop)
    (hallow : envLookup (s.setEnv top (bumpCounter eTop)) (s.length + 1) env
      "*allow-redefine*" = some (some aVal)) :
    ∃ eTop2 r,
      define_macro_handler ((.LCons (.LSymbol mname) params) :: b0 :: brest) env s =
        some (r, s.setEnv top eTop2) ∧
      eTop.parent = none ∧
      eTop2.bindings = eTop.bindings ∧
      (∃ mm, eTop2.macros = some mm ∧ (mapGet mm mname).isSome = true) ∧
      (∀ fid, fid ≠ top → (s.setEnv top eTop2).getEnv fid = s.getEnv fid) := by
  obtain ⟨e0, hg0, hp0⟩ := getTopLevel_spec s (s.length + 1) env top htop
  rw [hframe] at hg0
  cases hg0
  have hnext := nextProcedureId_spec s (s.length + 1) env top htop eTop hframe
  have hget2 : (s.setEnv top (bumpCounter eTop)).getEnv top = some (bumpCounter eTop) :=
    getEnv_setEnv_self s top _ eTop hframe
  have hfr : ∀ (eTop2 : Environment) fid, fid ≠ top →
      (s.setEnv top eTop2).getEnv fid = s.getEnv fid :=
    fun eTop2 fid hfid => getEnv_setEnv_ne s top fid eTop2 hfid
  simp only [bumpCounter, Store.setEnv] at hallow hget2 hnext hfr
  simp only [define_macro_handler, List.length_cons]
  rw [if_neg (by omega)]
  cases hmac : eTop.macros with
  | none =>
    simp only [hmac] at hallow hget2 hnext
    cases hdoc : b0.string_ref
    all_goals
      simp only [M.bind_apply, M.pure_apply, M.throwE_apply, LispObj.cons_split,
        M.getTopLevelM, htop, M.ofExcept, hArity, parse_lambda_args_body, procedure_new,
        List.head?, hdoc, List.isEmpty_cons, Bool.false_eq_true, if_false,
        M.nextProcedureIdM, hnext, M.lookupExpectM, List.length_set, hallow,
        M.letMacroM, hget2, Environment.let_macro, hmac, Store.setEnv, List.set_set]
    all_goals refine ⟨_, _, rfl, ?_, ?_, ?_, ?_⟩
    all_goals first
      | exact hp0
      | rfl
      | exact ⟨_, rfl, by simp [mapGet]⟩
      | exact hfr _
  | some m =>
    simp only [hmac] at hallow hget2 hnext
    cases hold : mapGet m mname with
    | some oldv =>
      by_cases hf : aVal.falsey = true
      all_goals cases hdoc : b0.string_ref
      all_goals
        simp only [M.bind_apply, M.pure_apply, M.throwE_apply, LispObj.cons_split,
          M.getTopLevelM, htop, M.ofExcept, hArity, parse_lambda_args_body, procedure_new,
          List.head?, hdoc, List.isEmpty_cons, Bool.false_eq_true, if_false,
          M.nextProcedureIdM, hnext, M.lookupExpectM, List.length_set, hallow,
          M.letMacroM, hget2, Environment.let_macro, hmac, Store.setEnv, List.set_set,
          mapPut_fst, hold, hf, if_true, M.throwE]
      all_goals refine ⟨_, _, rfl, ?_, ?_, ?_, ?_⟩
      all_goals first
        | exact hp0
        | rfl
        | exact ⟨_, rfl, by simp [mapGet_mapPut_self]⟩
        | exact hfr _
    | none =>
      cases hdoc : b0.string_ref
      all_goals
        simp only [M.bind_apply, M.pure_apply, M.throwE_apply, LispObj.cons_split,
          M.getTopLevelM, htop, M.ofExcept, hArity, parse_lambda_args_body, procedure_new,
          List.head?, hdoc, List.isEmpty_cons, Bool.false_eq_true, if_false,
          M.nextProcedureIdM, hnext, M.lookupExpectM, List.length_set, hallow,
          M.letMacroM, hget2, Environment.let_macro, hmac, Store.setEnv, List.set_set,
          mapPut_fst, hold]
      all_goals refine ⟨_, _, rfl, ?_, ?_, ?_, ?_⟩
      all_goals first
        | exact hp0
        | rfl
        | exact ⟨_, rfl, by simp [mapGet_mapPut_self]⟩
        | exact hfr _

/-- C2 counterexample: evaluating `(set! y 9)` from the child frame of
`storeTwo` replaces the binding of `y` in frame 1 — a frame *with* a
parent, hence not the global frame — while the global frame, which has no
binding for `y`, gains none.  This refutes the claim that all three
mutating forms always target the global (parentless) frame. -/
theorem c2_counterexample :
    set_handler 2 [.LSymbol "y", .LInteger 9] 1 storeTwo =
      some (.ok (.LInteger 5),
        [envGlobal, { envChild with bindings := [("y", .LInteger 9)] }]) ∧
    envChild.parent = some 0 ∧
    mapGet envGlobal.bindings "y" = none :=
  ⟨rfl, rfl, rfl⟩

/-- C2 (amended): `define` — in both its symbol form
`(define name expr)` and its function form
`(define (f . params) body...)` — and `define-macro` do target the
top-level frame — the unique parentless frame reached by
`get_top_level` — leaving every other frame untouched (beyond the
evaluation of the value expression, or the procedure construction that
draws an id from the top frame); but `set!` replaces the binding in the
*innermost* frame of the lexical chain that already binds the symbol
(`ownerFrame`), which need not be the global frame, touching no other
frame, and reports a bound-error when no frame in the chain binds it. -/
theorem c2_mutation_frames :
    (∀ (fuel : Nat) (n : String) (valueExpr : LispObj) (env : Nat) (s s1 : Store)
       (v : LispObj) (top : Nat) (eTop : Environment) (aVal : LispObj),
       eval fuel valueExpr env s = some (.ok v, s1) →
       getTopLevel s1 (s1.length + 1) env = some top →
       s1.getEnv top = some eTop →
       envLookup s1 (s1.length + 1) top "*allow-redefine*" = some (some aVal) →
       ∃ eTop2 r,
         define_handler (fuel + 1) [.LSymbol n, valueExpr] env s =
           some (r, s1.setEnv top eTop2) ∧
         eTop.parent = none ∧
         mapGet eTop2.bindings n = some (defineAdjust n v) ∧
         (∀ fid, fid ≠ top → (s1.setEnv top eTop2).getEnv fid = s1.getEnv fid)) ∧
    (∀ (fuel : Nat) (fname : String) (params body0 : LispObj) (bodyRest : List LispObj)
       (env : Nat) (s s1 : Store) (func : Procedure) (top : Nat) (eTop : Environment)
       (aVal : LispObj),
       parse_lambda_args_body params (body0 :: bodyRest) env s = some (.ok func, s1) →
       getTopLevel s1 (s1.length + 1) env = some top →
       s1.getEnv top = some eTop →
       envLookup s1 (s1.length + 1) top "*allow-redefine*" = some (some aVal) →
       ∃ eTop2 r,
         define_handler (fuel + 1) ((.LCons (.LSymbol fname) params) :: body0 :: bodyRest)
             env s =
           some (r, s1.setEnv top eTop2) ∧
         eTop.parent = none ∧
         mapGet eTop2.bindings fname = some (.LProcedure (func.with_name fname)) ∧
         (∀ fid, fid ≠ top → (s1.setEnv top eTop2).getEnv fid = s1.getEnv fid)) ∧
    (∀ (mname : String) (params b0 : LispObj) (brest : List LispObj) (env : Nat)
       (s : Store) (top : Nat) (eTop : Environment) (arity : ArityObj) (aVal : LispObj),
       parse_arglist params = .ok arity →
       getTopLevel s (s.length + 1) env = some top →
       s.getEnv top = some eTop →
       envLookup (s.setEnv top (bumpCounter eTop)) (s.length + 1) env "*allow-redefine*" =
         some (some aVal) →
       ∃ eTop2 r,
         define_macro_handler ((.LCons (.LSymbol mname) params) :: b0 :: brest) env s =
           some (r, s.setEnv top eTop2) ∧
         eTop.parent = none ∧
         eTop2.bindings = eTop.bindings ∧
         (∃ mm, eTop2.macros = some mm ∧ (mapGet mm mname).isSome = true) ∧
         (∀ fid, fid ≠ top → (s.setEnv top eTop2).getEnv fid = s.getEnv fid)) ∧
    (∀ (fuel : Nat) (nm : String) (valExpr : LispObj) (env : Nat) (s s1 : Store)
       (v : LispObj) (ids : List Nat),
       eval fuel valExpr env s = some (.ok v, s1) →
       (∀ e ∈ s1, (e.bindings.map Prod.fst).Nodup) →
       chainIds s1 (s1.length + 1) env = some ids →
       (match ownerFrame s1 ids nm with
        | some fid =>
          ∃ e old, s1.getEnv fid = some e ∧ mapGet e.bindings nm = some old ∧
            set_handler (fuel + 1) [.LSymbol nm, valExpr] env s =
              some (.ok old,
                s1.setEnv fid { e with bindings := (mapPut (mapDel e.bindings nm).2 nm v).2 }) ∧
            (∀ fid2, fid2 ≠ fid →
              (s1.setEnv fid
                { e with bindings := (mapPut (mapDel e.bindings nm).2 nm v).2 }).getEnv fid2 =
                s1.getEnv fid2)
        | none =>
          set_handler (fuel + 1) [.LSymbol nm, valExpr] env s =
            some (.error (boundError ("cannot set! unbound symbol " ++ nm)), s1))) := by
  refine ⟨?_, ?_, ?_, ?_⟩
  · intro fuel n valueExpr env s s1 v top eTop aVal heval htop hframe hallow
    obtain ⟨e0, hg0, hp0⟩ := getTopLevel_spec s1 (s1.length + 1) env top htop
    rw [hframe] at hg0
    cases hg0
    have heq := define_handler_sym fuel n valueExpr env s s1 v top eTop aVal heval htop
      hframe hallow
    refine ⟨{ eTop with bindings := (mapPut eTop.bindings n (defineAdjust n v)).2 }, ?_⟩
    cases hb : mapGet eTop.bindings n with
    | some old =>
      simp only [hb] at heq
      by_cases hf : aVal.falsey = true
      · rw [if_pos hf] at heq
        exact ⟨_, heq, hp0, mapGet_mapPut_self _ _ _,
          fun fid hfid => getEnv_setEnv_ne s1 top fid _ hfid⟩
      · rw [if_neg hf] at heq
        exact ⟨_, heq, hp0, mapGet_mapPut_self _ _ _,
          fun fid hfid => getEnv_setEnv_ne s1 top fid _ hfid⟩
    | none =>
      simp only [hb] at heq
      exact ⟨_, heq, hp0, mapGet_mapPut_self _ _ _,
        fun fid hfid => getEnv_setEnv_ne s1 top fid _ hfid⟩
  · intro fuel fname params body0 bodyRest env s s1 func top eTop aVal hfun htop
      hframe hallow
    obtain ⟨e0, hg0, hp0⟩ := getTopLevel_spec s1 (s1.length + 1) env top htop
    rw [hframe] at hg0
    cases hg0
    have heq := define_handler_fun fuel fname params body0 bodyRest env s s1 func top
      eTop aVal hfun htop hframe hallow
    refine ⟨{ eTop with bindings :=
      (mapPut eTop.bindings fname (.LProcedure (func.with_name fname))).2 }, ?_⟩
    cases hb : mapGet eTop.bindings fname with
    | some old =>
      simp only [hb] at heq
      by_cases hf : aVal.falsey = true
      · rw [if_pos hf] at heq
        exact ⟨_, heq, hp0, mapGet_mapPut_self _ _ _,
          fun fid hfid => getEnv_setEnv_ne s1 top fid _ hfid⟩
      · rw [if_neg hf] at heq
        exact ⟨_, heq, hp0, mapGet_mapPut_self _ _ _,
          fun fid hfid => getEnv_setEnv_ne s1 top fid _ hfid⟩
    | none =>
      simp only [hb] at heq
      exact ⟨_, heq, hp0, mapGet_mapPut_self _ _ _,
        fun fid hfid => getEnv_setEnv_ne s1 top fid _ hfid⟩
  · intro mname params b0 brest env s top eTop arity aVal hA ht hf ha
    exact define_macro_targets_top mname params b0 brest env s top eTop arity aVal hA ht hf ha
  · intro fuel nm valExpr env s s1 v ids heval hN hids
    have hsw := swapValues_spec s1 hN (s1.length + 1) env nm v ids hids
    cases ho : ownerFrame s1 ids nm with
    | some fid =>
      simp only [ho] at hsw
      obtain ⟨e, old, hge, hb, hs⟩ := hsw
      refine ⟨e, old, hge, hb, ?_,
        fun fid2 hfid2 => getEnv_setEnv_ne s1 fid fid2 _ hfid2⟩
      rw [set_handler]
      simp [heval, M.swapValuesM, hs]
    | none =>
      simp only [ho] at hsw
      rw [set_handler]
      simp [heval, M.swapValuesM, hsw, M.throwE]

theorem c2_witness :
    (eval 1 (.LInteger 2) 1 storeTwo = some (.ok (.LInteger 2), storeTwo)) ∧
    (getTopLevel storeTwo (storeTwo.length + 1) 1 = some 0) ∧
    (parse_arglist .LNil = .ok ⟨[], none⟩) ∧
    (chainIds storeTwo (storeTwo.length + 1) 1 = some [1, 0]) ∧
    (∃ eTop2 r,
      define_handler 2 [.LSymbol "x", .LInteger 2] 1 storeTwo =
        some (r, storeTwo.setEnv 0 eTop2) ∧
      envGlobal.parent = none ∧
      mapGet eTop2.bindings "x" = some (defineAdjust "x" (.LInteger 2)) ∧
      (∀ fid, fid ≠ 0 → (storeTwo.setEnv 0 eTop2).getEnv fid = storeTwo.getEnv fid)) ∧
    (parse_lambda_args_body .LNil [.LInteger 7] 1 storeTwo =
      some (.ok (Procedure.mk 1 none 0 none [(⟨[], none⟩, [.LInteger 7])]),
        storeTwo.setEnv 0 { envGlobal with max_procedure_id := 1 })) ∧
    (∃ eTop2 r,
      define_handler 2 [.LCons (.LSymbol "f") .LNil, .LInteger 7] 1 storeTwo =
        some (r,
          (storeTwo.setEnv 0 { envGlobal with max_procedure_id := 1 }).setEnv 0 eTop2) ∧
      ({ envGlobal with max_procedure_id := 1 } : Environment).parent = none ∧
      mapGet eTop2.bindings "f" =
        some (.LProcedure
          ((Procedure.mk 1 none 0 none [(⟨[], none⟩, [.LInteger 7])]).with_name "f")) ∧
      (∀ fid, fid ≠ 0 →
        ((storeTwo.setEnv 0 { envGlobal with max_procedure_id := 1 }).setEnv 0
              eTop2).getEnv fid =
          (storeTwo.setEnv 0 { envGlobal with max_procedure_id := 1 }).getEnv fid)) ∧
    (∃ eTop2 r,
      define_macro_handler [.LCons (.LSymbol "m") .LNil, .LInteger 7] 1 storeTwo =
        some (r, storeTwo.setEnv 0 eTop2) ∧
      envGlobal.parent = none ∧
      eTop2.bindings = envGlobal.bindings ∧
      (∃ mm, eTop2.macros = some mm ∧ (mapGet mm "m").isSome = true) ∧
      (∀ fid, fid ≠ 0 → (storeTwo.setEnv 0 eTop2).getEnv fid = storeTwo.getEnv fid)) ∧
    (match ownerFrame storeTwo [1, 0] "y" with
     | some fid =>
       ∃ e old, storeTwo.getEnv fid = some e ∧ mapGet e.bindings "y" = some old ∧
         set_handler 2 [.LSymbol "y", .LInteger 9] 1 storeTwo =
           some (.ok old,
             storeTwo.setEnv fid
               { e with bindings := (mapPut (mapDel e.bindings "y").2 "y" (.LInteger 9)).2 }) ∧
         (∀ fid2, fid2 ≠ fid →
           (storeTwo.setEnv fid
             { e with
                 bindings := (mapPut (mapDel e.bindings "y").2 "y" (.LInteger 9)).2 }).getEnv
               fid2 =
             storeTwo.getEnv fid2)
     | none =>
       set_handler 2 [.LSymbol "y", .LInteger 9] 1 storeTwo =
         some (.error (boundError ("cannot set! unbound symbol " ++ "y")), storeTwo)) :=
  ⟨rfl, rfl, rfl, rfl,
    c2_mutation_frames.1 1 "x" (.LInteger 2) 1 storeTwo storeTwo (.LInteger 2) 0
      envGlobal (.LSymbol "false") rfl rfl rfl rfl,
    rfl,
    c2_mutation_frames.2.1 1 "f" .LNil (.LInteger 7) [] 1 storeTwo
      (storeTwo.setEnv 0 { envGlobal with max_procedure_id := 1 })
      (Procedure.mk 1 none 0 none [(⟨[], none⟩, [.LInteger 7])]) 0
      { envGlobal with max_procedure_id := 1 } (.LSymbol "false") rfl rfl rfl rfl,
    c2_mutation_frames.2.2.1 "m" .LNil (.LInteger 7) [] 1 storeTwo 0 envGlobal
      ⟨[], none⟩ (.LSymbol "false") rfl rfl rfl rfl,
    c2_mutation_frames.2.2.2 1 "y" (.LInteger 9) 1 storeTwo storeTwo (.LInteger 9) [1, 0]
      rfl (by decide) rfl⟩

end RustyLisp
